import Mathlib

/-!
Verification of the sequence-analyzer and consolidation engine of the
plumepackclone repository (src/src-tauri/src/sequence_analyzer.rs and
src/src-tauri/src/consolidation.rs), as a shallow embedding in Lean.

Modelling conventions:
* Rust `i64` tick arithmetic is modelled by unbounded `Int` (tick values in
  the program stay far below 2^63, where the two agree); the one place the
  code uses the constant `i64::MAX` is kept as the literal `2 ^ 63 - 1`.
* Rust `HashMap<String, V>` is modelled as an association list
  `List (String × V)` with `List.lookup` as `get`; `HashSet<String>` as a
  `List String` guarded by a membership test before insertion.  All claims
  about these containers are stated at the level of key sets, where the
  hash-iteration order of the originals is irrelevant.
* `Vec::sort_by_key` (a stable sort) is modelled by `List.insertionSort`,
  which is also stable, so both produce the same list for the same key order.
* Rust `String::replace` (leftmost, non-overlapping, all occurrences) is
  modelled on `List Char` by `replaceAll` below.
-/

/-! ## TimeRange (sequence_analyzer.rs, lines 31-90) -/

/-- `TimeRange` from sequence_analyzer.rs: a time range in ticks. -/
structure TimeRange where
  start_ticks : Int
  end_ticks : Int
deriving DecidableEq

/-- `TimeRange::new`: swaps the endpoints so that `start_ticks ≤ end_ticks`. -/
def TimeRange.new (start e : Int) : TimeRange :=
  { start_ticks := min start e, end_ticks := max start e }

/-- `TimeRange::duration`. -/
def TimeRange.duration (r : TimeRange) : Int :=
  r.end_ticks - r.start_ticks

/-- `TimeRange::with_handles`: add handles, clamping into `[0, max_duration]`. -/
def TimeRange.with_handles (r : TimeRange) (handle_ticks max_duration : Int) : TimeRange :=
  { start_ticks := max (r.start_ticks - handle_ticks) 0,
    end_ticks := min (r.end_ticks + handle_ticks) max_duration }

/-- `TimeRange::merge_with`: merge overlapping or close-enough ranges. -/
def TimeRange.merge_with (r other : TimeRange) (gap_tolerance : Int) : Option TimeRange :=
  if r.end_ticks + gap_tolerance ≥ other.start_ticks ∧
      other.end_ticks + gap_tolerance ≥ r.start_ticks then
    some (TimeRange.new (min r.start_ticks other.start_ticks)
      (max r.end_ticks other.end_ticks))
  else
    none

/-- Comparison by `start_ticks`, the sort key used by `optimize_time_ranges`. -/
def startLE (a b : TimeRange) : Prop := a.start_ticks ≤ b.start_ticks

instance : DecidableRel startLE :=
  fun a b => inferInstanceAs (Decidable (a.start_ticks ≤ b.start_ticks))

instance : IsTotal TimeRange startLE :=
  ⟨fun a b => Int.le_total a.start_ticks b.start_ticks⟩

instance : IsTrans TimeRange startLE :=
  ⟨fun _ _ _ hab hbc => le_trans hab hbc⟩

/-- The fold of `optimize_time_ranges`: `last` is the final element of the
`optimized` vector (mutated in place on a merge, pushed otherwise). -/
def optLoop (gap_tolerance : Int) : TimeRange → List TimeRange → List TimeRange
  | last, [] => [last]
  | last, r :: rs =>
    match last.merge_with r gap_tolerance with
    | some merged => optLoop gap_tolerance merged rs
    | none => last :: optLoop gap_tolerance r rs

/-- `optimize_time_ranges` (sequence_analyzer.rs, lines 331-351): sort by
`start_ticks`, then fold left merging mergeable neighbours. -/
def optimize_time_ranges (ranges : List TimeRange) (gap_tolerance : Int) : List TimeRange :=
  match ranges.insertionSort startLE with
  | [] => []
  | first :: rest => optLoop gap_tolerance first rest

/-! ## Project data model (project_parser.rs, lines 16-154) -/

/-- `FrameRate` from project_parser.rs. -/
structure FrameRate where
  numerator : Nat
  denominator : Nat
deriving DecidableEq

/-- `MediaType` from project_parser.rs. -/
inductive MediaType where
  | Video
  | Audio
  | Image
  | ImageSequence
  | RED
  | BRAW
  | Graphics
  | Unknown
deriving DecidableEq

/-- `MediaFile` from project_parser.rs (paths modelled as strings). -/
structure MediaFile where
  object_id : String
  file_path : String
  has_video : Bool
  has_audio : Bool
  duration_ticks : Int
  frame_rate : Option FrameRate
  proxy_path : Option String
  is_offline : Bool
  media_type : MediaType
deriving DecidableEq

/-- `MulticamAngle` from project_parser.rs. -/
structure MulticamAngle where
  name : String
  media_ref : String
  is_active : Bool
deriving DecidableEq

/-- `ClipType` from project_parser.rs. -/
inductive ClipType where
  | Standard
  | Subclip (parent_id : String)
  | MergedClip (components : List String)
  | Multicam (angles : List MulticamAngle)
  | Nested (sequence_id : String)
  | Adjustment
deriving DecidableEq

/-- `TrackClip` from project_parser.rs.  The `speed : f64` field is carried
as a `Float`; no claim reads it. -/
structure TrackClip where
  object_id : String
  name : String
  start_ticks : Int
  end_ticks : Int
  in_point_ticks : Int
  out_point_ticks : Int
  media_ref : Option String
  clip_type : ClipType
  speed : Float

/-- `TrackType` from project_parser.rs. -/
inductive TrackType where
  | Video
  | Audio
deriving DecidableEq

/-- `Track` from project_parser.rs. -/
structure Track where
  object_id : String
  name : String
  track_type : TrackType
  clips : List TrackClip

/-- `Sequence` from project_parser.rs. -/
structure Sequence where
  object_id : String
  name : String
  duration_ticks : Int
  frame_rate : FrameRate
  video_tracks : List Track
  audio_tracks : List Track
  nested_sequences : List String

/-- `Bin` from project_parser.rs. -/
structure Bin where
  object_id : String
  name : String
  parent_id : Option String
  children : List String
  path : String
deriving DecidableEq

/-- `ProjectItemType` from project_parser.rs. -/
inductive ProjectItemType where
  | Clip
  | Sequence
  | Bin
  | Subclip
  | MergedClip
  | Multicam
deriving DecidableEq

/-- `ProjectItem` from project_parser.rs. -/
structure ProjectItem where
  object_id : String
  name : String
  item_type : ProjectItemType
  media_ref : Option String
  bin_id : Option String
deriving DecidableEq

/-- `PremiereProject` from project_parser.rs; the two `HashMap`s are
association lists. -/
structure PremiereProject where
  file_path : String
  name : String
  version : Nat
  bins : List Bin
  sequences : List Sequence
  media_files : List (String × MediaFile)
  project_items : List (String × ProjectItem)

/-! ## Sequence analyzer (sequence_analyzer.rs, lines 11-328) -/

/-- `MediaUsageInfo` from sequence_analyzer.rs. -/
structure MediaUsageInfo where
  object_id : String
  usage_count : Nat
  time_ranges : List TimeRange
  merged_range : TimeRange
  used_in_sequences : List String
  is_multicam_angle : Bool
  is_merged_component : Bool
deriving DecidableEq

/-- `MediaUsageAnalysis` from sequence_analyzer.rs; `used_media` is the
`HashMap` as an association list. -/
structure MediaUsageAnalysis where
  used_media : List (String × MediaUsageInfo)
  unused_media : List String
  sequences_analyzed : List String

/-- `SequenceAnalyzer` from sequence_analyzer.rs (the borrowed project is a
field here). -/
structure SequenceAnalyzer where
  project : PremiereProject
  handle_frames : Int
  include_unused_multicam_angles : Bool

/-- `SequenceAnalyzer::TICKS_PER_SECOND`. -/
def SequenceAnalyzer.TICKS_PER_SECOND : Int := 254016000000

/-- Rust's `i64::MAX`, used by `add_media_usage` when the media is unknown. -/
def i64_MAX : Int := 2 ^ 63 - 1

/-- `SequenceAnalyzer::new`. -/
def SequenceAnalyzer.new (project : PremiereProject) : SequenceAnalyzer :=
  { project := project, handle_frames := 0, include_unused_multicam_angles := true }

/-- `SequenceAnalyzer::with_handles` (builder setter). -/
def SequenceAnalyzer.with_handles (a : SequenceAnalyzer) (frames : Int) : SequenceAnalyzer :=
  { a with handle_frames := frames }

/-- `SequenceAnalyzer::include_all_multicam_angles` (builder setter). -/
def SequenceAnalyzer.include_all_multicam_angles (a : SequenceAnalyzer) (include_ : Bool) :
    SequenceAnalyzer :=
  { a with include_unused_multicam_angles := include_ }

/-- The `HashMap::entry(k).or_insert_with(dflt)` + in-place mutation `f`
pattern of `add_media_usage`, on an association list. -/
def updateEntry (k : String) (dflt : MediaUsageInfo) (f : MediaUsageInfo → MediaUsageInfo) :
    List (String × MediaUsageInfo) → List (String × MediaUsageInfo)
  | [] => [(k, f dflt)]
  | (k', v) :: rest =>
    if k' == k then (k', f v) :: rest else (k', v) :: updateEntry k dflt f rest

/-- `SequenceAnalyzer::add_media_usage` (sequence_analyzer.rs, lines 275-327). -/
def addMediaUsage (a : SequenceAnalyzer) (media_id : String) (clip : TrackClip)
    (sequence_id : String) (used_media : List (String × MediaUsageInfo))
    (is_multicam is_merged : Bool) : List (String × MediaUsageInfo) :=
  let time_range := TimeRange.new clip.in_point_ticks clip.out_point_ticks
  let media_duration :=
    ((List.lookup media_id a.project.media_files).map (fun m => m.duration_ticks)).getD i64_MAX
  let handle_ticks := a.handle_frames * (SequenceAnalyzer.TICKS_PER_SECOND / 24)
  let tr := time_range.with_handles handle_ticks media_duration
  updateEntry media_id
    { object_id := media_id
      usage_count := 0
      time_ranges := []
      merged_range := tr
      used_in_sequences := []
      is_multicam_angle := is_multicam
      is_merged_component := is_merged }
    (fun entry =>
      { entry with
        usage_count := entry.usage_count + 1
        time_ranges := entry.time_ranges ++ [tr]
        used_in_sequences :=
          if sequence_id ∈ entry.used_in_sequences then entry.used_in_sequences
          else entry.used_in_sequences ++ [sequence_id]
        merged_range := TimeRange.new (min entry.merged_range.start_ticks tr.start_ticks)
          (max entry.merged_range.end_ticks tr.end_ticks)
        is_multicam_angle := entry.is_multicam_angle || is_multicam
        is_merged_component := entry.is_merged_component || is_merged })
    used_media

/-- The per-clip dispatch of `SequenceAnalyzer::analyze_clip`
(sequence_analyzer.rs, lines 202-273), except that the recursion of the
`Nested` arm is performed by the task loop below (that arm touches no media). -/
def analyzeClipStep (a : SequenceAnalyzer) (clip : TrackClip) (sequence_id : String)
    (used_media : List (String × MediaUsageInfo)) : List (String × MediaUsageInfo) :=
  match clip.clip_type with
  | ClipType.Standard =>
    match clip.media_ref with
    | some media_ref => addMediaUsage a media_ref clip sequence_id used_media false false
    | none => used_media
  | ClipType.Subclip parent_id =>
    addMediaUsage a parent_id clip sequence_id used_media false false
  | ClipType.MergedClip components =>
    components.foldl
      (fun u component_id =>
        let u :=
          match clip.media_ref with
          | some media_ref => addMediaUsage a media_ref clip sequence_id u false true
          | none => u
        addMediaUsage a component_id clip sequence_id u false true)
      used_media
  | ClipType.Multicam angles =>
    angles.foldl
      (fun u angle =>
        if angle.is_active || a.include_unused_multicam_angles then
          addMediaUsage a angle.media_ref clip sequence_id u true false
        else u)
      used_media
  | ClipType.Nested _ => used_media
  | ClipType.Adjustment => used_media

/-- Work items of the analyzer recursion: analyzing a sequence id, or a clip
inside a named sequence.  The Rust recursion of
`analyze_sequence_recursive` / `analyze_clip` is run as a depth-first task
stack, preserving the call order. -/
inductive AnTask where
  | seq (sequence_id : String)
  | clip (c : TrackClip) (sequence_id : String)

/-- Mutable state of the analysis: the `used_media` map and the `analyzed`
set (a list only consed after a membership test). -/
structure AnalyzerState where
  used_media : List (String × MediaUsageInfo)
  analyzed : List String

/-- Tasks produced on entering a sequence: all clips of all video tracks,
then of all audio tracks, then the explicitly listed nested sequences —
the statement order of `analyze_sequence_recursive`. -/
def sequenceTasks (s : Sequence) : List AnTask :=
  ((s.video_tracks.flatMap (fun t => t.clips)
     ++ s.audio_tracks.flatMap (fun t => t.clips)).map
    (fun c => AnTask.clip c s.object_id))
    ++ s.nested_sequences.map AnTask.seq

/-- Weight of a task for the termination measure (a clip can spawn one
sequence task). -/
def taskWeight : AnTask → Nat
  | AnTask.seq _ => 1
  | AnTask.clip _ _ => 2

/-- Total weight of a task stack. -/
def tasksWeight (ts : List AnTask) : Nat := (ts.map taskWeight).sum

/-- Number of project sequences not yet in the analyzed set; the quantity
that makes the cycle-guarded recursion terminate. -/
def remainingSeqs (p : PremiereProject) (analyzed : List String) : Nat :=
  ((p.sequences.map (fun s => s.object_id)).filter (fun s => !(analyzed.contains s))).length

/-- The recursion of `analyze_sequence_recursive` (sequence_analyzer.rs,
lines 155-200) and the `Nested` arm of `analyze_clip`, defunctionalized as a
task stack.  A sequence task returns immediately when its id is already in
`analyzed` (the cycle guard), otherwise inserts the id, looks the sequence
up, and pushes its clips and nested sequences; a clip task updates
`used_media` through `analyzeClipStep` and, for a `Nested` clip, pushes the
nested sequence task. -/
def analyzeLoop (a : SequenceAnalyzer) : List AnTask → AnalyzerState → AnalyzerState
  | [], st => st
  | AnTask.seq sequence_id :: rest, st =>
    if st.analyzed.contains sequence_id then
      analyzeLoop a rest st
    else
      let st' : AnalyzerState := { st with analyzed := sequence_id :: st.analyzed }
      match hf : a.project.sequences.find? (fun s => s.object_id == sequence_id) with
      | some s => analyzeLoop a (sequenceTasks s ++ rest) st'
      | none => analyzeLoop a rest st'
  | AnTask.clip c sequence_id :: rest, st =>
    match c.clip_type with
    | ClipType.Nested nested_id =>
      analyzeLoop a (AnTask.seq nested_id :: rest)
        { st with used_media := analyzeClipStep a c sequence_id st.used_media }
    | _ =>
      analyzeLoop a rest
        { st with used_media := analyzeClipStep a c sequence_id st.used_media }
termination_by ts st => (remainingSeqs a.project st.analyzed, tasksWeight ts)
decreasing_by
  · apply Prod.Lex.right
    simp [tasksWeight, taskWeight]
  · apply Prod.Lex.left
    have hmem : sequence_id ∈ a.project.sequences.map (fun s => s.object_id) := by
      have hp := List.find?_some hf
      simp only [beq_iff_eq] at hp
      exact List.mem_map.mpr ⟨s, List.mem_of_find?_eq_some hf, hp⟩
    rename_i hcon
    have hnot : (st.analyzed.contains sequence_id) = false := by
      simpa using hcon
    unfold remainingSeqs
    have hsub : ((a.project.sequences.map (fun s => s.object_id)).filter
        (fun s => !((sequence_id :: st.analyzed).contains s))).Sublist
        ((a.project.sequences.map (fun s => s.object_id)).filter
          (fun s => !(st.analyzed.contains s))) := by
      apply List.monotone_filter_right
      intro x hx
      simp only [List.contains_cons, Bool.not_eq_true', Bool.or_eq_false_iff] at hx ⊢
      exact hx.2
    apply Nat.lt_of_le_of_ne hsub.length_le
    intro heq
    have heqq := hsub.eq_of_length heq
    have hmem2 : sequence_id ∈ (a.project.sequences.map (fun s => s.object_id)).filter
        (fun s => !(st.analyzed.contains s)) := by
      simp only [List.mem_filter, hnot]
      exact ⟨hmem, rfl⟩
    rw [← heqq] at hmem2
    simp [List.mem_filter] at hmem2
  · apply Prod.Lex.right'
    · unfold remainingSeqs
      apply List.Sublist.length_le
      apply List.monotone_filter_right
      intro x hx
      simp only [List.contains_cons, Bool.not_eq_true', Bool.or_eq_false_iff] at hx ⊢
      exact hx.2
    · simp [tasksWeight, taskWeight]
  · apply Prod.Lex.right
    simp [tasksWeight, taskWeight]
  · apply Prod.Lex.right
    simp [tasksWeight, taskWeight]

/-- `SequenceAnalyzer::analyze_sequences` (sequence_analyzer.rs,
lines 124-142): run the recursion from the given ids, then compute
`unused = all media ids − used ids`. -/
def SequenceAnalyzer.analyze_sequences (a : SequenceAnalyzer) (sequence_ids : List String) :
    MediaUsageAnalysis :=
  let st := analyzeLoop a (sequence_ids.map AnTask.seq) { used_media := [], analyzed := [] }
  let all_media_ids := a.project.media_files.map Prod.fst
  let used_ids := st.used_media.map Prod.fst
  let unused_media := all_media_ids.filter (fun id => !(used_ids.contains id))
  { used_media := st.used_media
    unused_media := unused_media
    sequences_analyzed := st.analyzed }

/-- `SequenceAnalyzer::analyze_all` (sequence_analyzer.rs, lines 144-153). -/
def SequenceAnalyzer.analyze_all (a : SequenceAnalyzer) : MediaUsageAnalysis :=
  a.analyze_sequences (a.project.sequences.map (fun s => s.object_id))

/-! ## Consolidation engine (consolidation.rs, lines 84-782)

The engine is modelled at the granularity of its observable progress record:
statuses, errors, warnings, counters, and the cancellation checkpoints.
Filesystem and FFmpeg effects are abstracted into a `RunEnv`: which source
paths exist on disk, and from which checkpoint the shared atomic cancel flag
reads true (the flag is monotone, so a single index suffices).  Per-item
processing (copy/trim/transcode) is modelled as succeeding; the mid-process
poll loop of the FFmpeg adapter, which aborts `run` with an error without
reaching a checkpoint, is outside this model. -/

/-- `ConsolidationStatus` from consolidation.rs. -/
inductive ConsolidationStatus where
  | Pending
  | Analyzing
  | Processing
  | WritingProject
  | Completed
  | Cancelled
  | Failed
deriving DecidableEq

/-- `ProcessingError` from consolidation.rs. -/
structure ProcessingError where
  file_path : String
  error_message : String
  is_fatal : Bool
deriving DecidableEq

/-- The configuration fields of `ConsolidationConfig` that the modelled
observables depend on (the processing/optimization/folder/proxy enums only
select among abstracted file operations). -/
structure ConsolidationConfig where
  sequences : List String
  handle_frames : Int
  include_unused_multicam_angles : Bool
  skip_offline_media : Bool

/-- The observable fields of `ConsolidationProgress`. -/
structure RunProgress where
  status : ConsolidationStatus
  current_operation : String
  errors : List ProcessingError
  warnings : List String
  files_processed : Nat
  files_total : Nat
deriving DecidableEq

/-- Engine-side state: the progress record behind the mutex, the number of
`check_cancelled` calls made so far, and whether `write_project_file` has
produced the rewritten project in the output directory. -/
structure RunSt where
  progress : RunProgress
  checksDone : Nat
  projectWritten : Bool
deriving DecidableEq

/-- Abstracted environment of a consolidation run. -/
structure RunEnv where
  cancelFrom : Option Nat
  fileOnDisk : String → Bool

/-- `ConsolidationEngine::update_status` (consolidation.rs, lines 355-359). -/
def update_status (st : RunSt) (status : ConsolidationStatus) (operation : String) : RunSt :=
  { st with progress := { st.progress with status := status, current_operation := operation } }

/-- `ConsolidationEngine::check_cancelled` (consolidation.rs, lines 347-353):
reads the flag; when set, updates the status to `Cancelled` and bails
(the `true` component).  Note that it records no error. -/
def check_cancelled (env : RunEnv) (st : RunSt) : RunSt × Bool :=
  let observed :=
    match env.cancelFrom with
    | some k => decide (k ≤ st.checksDone)
    | none => false
  let st := { st with checksDone := st.checksDone + 1 }
  if observed then (update_status st ConsolidationStatus.Cancelled "Cancelled by user", true)
  else (st, false)

/-- The per-media loop of phase 4 of `ConsolidationEngine::run`
(consolidation.rs, lines 243-319): cancellation check, media lookup,
offline handling, then abstracted processing.  The `Bool` reports a
cancellation bail-out. -/
def runItems (cfg : ConsolidationConfig) (p : PremiereProject) (env : RunEnv) :
    List (String × MediaUsageInfo) → RunSt → RunSt × Bool
  | [], st => (st, false)
  | (media_id, _info) :: rest, st =>
    let r := check_cancelled env st
    if r.2 then (r.1, true)
    else
      let st := r.1
      match List.lookup media_id p.media_files with
      | none =>
        runItems cfg p env rest
          { st with progress :=
            { st.progress with warnings :=
              st.progress.warnings ++ ["Media not found: " ++ media_id] } }
      | some media =>
        if !(env.fileOnDisk media.file_path) then
          if cfg.skip_offline_media then
            runItems cfg p env rest
              { st with progress :=
                { st.progress with warnings :=
                  st.progress.warnings ++ ["Skipping offline media: " ++ media.file_path] } }
          else
            runItems cfg p env rest
              { st with progress :=
                { st.progress with errors :=
                  st.progress.errors ++
                    [{ file_path := media.file_path
                       error_message := "File is offline"
                       is_fatal := false }] } }
        else
          runItems cfg p env rest
            { st with progress :=
              { st.progress with files_processed := st.progress.files_processed + 1 } }

/-- The media-usage analysis phase 1 of `ConsolidationEngine::run` performs
(consolidation.rs, lines 204-212): configured sequences, empty meaning all. -/
def runUsage (cfg : ConsolidationConfig) (p : PremiereProject) : MediaUsageAnalysis :=
  let analyzer :=
    ((SequenceAnalyzer.new p).with_handles cfg.handle_frames).include_all_multicam_angles
      cfg.include_unused_multicam_angles
  if cfg.sequences.isEmpty then analyzer.analyze_all
  else analyzer.analyze_sequences cfg.sequences

/-- The observable fields of `ConsolidationResult`. -/
structure RunResult where
  success : Bool
  files_processed : Nat
  errors : List ProcessingError
  warnings : List String
deriving DecidableEq

/-- `ConsolidationEngine::run` (consolidation.rs, lines 197-345): the five
phases with their cancellation checkpoints.  Returns the final engine state
and `some result` exactly when the run completes (the Rust `Ok` path);
a cancellation bail-out returns `none` (the Rust `Err` path). -/
def ConsolidationEngine.run (cfg : ConsolidationConfig) (p : PremiereProject) (env : RunEnv) :
    RunSt × Option RunResult :=
  let st : RunSt :=
    { progress :=
      { status := ConsolidationStatus.Pending
        current_operation := ""
        errors := []
        warnings := []
        files_processed := 0
        files_total := 0 }
      checksDone := 0
      projectWritten := false }
  let st := update_status st ConsolidationStatus.Analyzing "Analyzing sequences..."
  let usage := runUsage cfg p
  let r1 := check_cancelled env st
  if r1.2 then (r1.1, none) else
  let st := { r1.1 with progress := { r1.1.progress with files_total := usage.used_media.length } }
  let r2 := check_cancelled env st
  if r2.2 then (r2.1, none) else
  let st := update_status r2.1 ConsolidationStatus.Processing "Creating output directories..."
  let r3 := check_cancelled env st
  if r3.2 then (r3.1, none) else
  let r4 := runItems cfg p env usage.used_media r3.1
  if r4.2 then (r4.1, none) else
  let r5 := check_cancelled env r4.1
  if r5.2 then (r5.1, none) else
  let st := update_status r5.1 ConsolidationStatus.WritingProject "Creating new project file..."
  let st := { st with projectWritten := true }
  let st := update_status st ConsolidationStatus.Completed "Consolidation complete"
  (st,
    some
      { success := st.progress.errors.all (fun e => !e.is_fatal)
        files_processed := st.progress.files_processed
        errors := st.progress.errors
        warnings := st.progress.warnings })

/-! ## The refined cancellation model

`ConsolidationEngine.run` above observes the cancel flag only at the
engine's `check_cancelled` checkpoints.  The program has a second kind of
observation: while an item is being trimmed or transcoded, the FFmpeg
adapter's monitor loop (ffmpeg.rs, lines 464-473 and 523-531) polls the
same flag, kills the child process when it reads true, and bails with a
plain error — it changes no status and records no error, and the `?` at the
`process_trim`/`process_transcode` call sites (consolidation.rs, lines
287, 291) propagates that error straight out of `run`; the caller
(commands.rs, lines 388-394) only logs it.  The refined model `runF` adds
these in-processing observation points.  `checksDone` counts observation
points of either kind, in program order; `cancelFrom` is the first
observation point at which the flag reads true.  The whole polling window
of one item is a single observation point.  The other fallible per-item
operations (output-path computation, directory creation, the copy itself,
sidecar and proxy copies) are still modelled as succeeding: they do not
read the cancel flag. -/

/-- `ProcessingModeConfig` from consolidation.rs (the `Transcode` preset
payload is dropped: the model never inspects it). -/
inductive ProcessingModeConfig where
  | Trim
  | Transcode
  | Copy
  | NoProcess
deriving DecidableEq

/-- Whether a processing mode routes through the FFmpeg adapter's
cancellation-polling monitor loop: `process_trim` and `process_transcode`
pass the engine's cancel flag to FFmpeg (consolidation.rs, lines 539-592
and 609-634), `process_copy` is a plain `fs::copy` (lines 641-645) and
`NoProcess` performs no processing at all.  (`process_trim` falls back to
`process_copy` only on an empty range list, which analyzer-produced usage
entries never have: `add_media_usage` records a range whenever it creates
or updates an entry.) -/
def modePolls : ProcessingModeConfig → Bool
  | ProcessingModeConfig.Trim => true
  | ProcessingModeConfig.Transcode => true
  | ProcessingModeConfig.Copy => false
  | ProcessingModeConfig.NoProcess => false

/-- Environment of the refined model: the coarse environment plus the one
configuration field the refinement depends on, `config.processing_mode`
(kept here so that the abstract `ConsolidationConfig` shared with the
coarse model stays unchanged). -/
structure RunEnvF extends RunEnv where
  processing_mode : ProcessingModeConfig

/-- One in-processing polling window of the FFmpeg monitor loop (ffmpeg.rs,
lines 464-473 and 523-531): consumes one observation point; when the flag
reads true it kills the child and bails (the `true` component) — without
touching the status, the errors, or anything else of the progress record. -/
def ffmpegPoll (env : RunEnvF) (st : RunSt) : RunSt × Bool :=
  let observed :=
    match env.cancelFrom with
    | some k => decide (k ≤ st.checksDone)
    | none => false
  ({ st with checksDone := st.checksDone + 1 }, observed)

/-- The per-media loop of phase 4 of `ConsolidationEngine::run`
(consolidation.rs, lines 243-319), refined: cancellation checkpoint, media
lookup, offline handling, then processing with the in-processing FFmpeg
poll for the modes that poll.  The `Bool` reports a bail-out of either
kind: a checkpoint observation (after setting status `Cancelled`) or a
poll observation (leaving the status untouched). -/
def runItemsF (cfg : ConsolidationConfig) (p : PremiereProject) (env : RunEnvF) :
    List (String × MediaUsageInfo) → RunSt → RunSt × Bool
  | [], st => (st, false)
  | (media_id, _info) :: rest, st =>
    let r := check_cancelled env.toRunEnv st
    if r.2 then (r.1, true)
    else
      let st := r.1
      match List.lookup media_id p.media_files with
      | none =>
        runItemsF cfg p env rest
          { st with progress :=
            { st.progress with warnings :=
              st.progress.warnings ++ ["Media not found: " ++ media_id] } }
      | some media =>
        if !(env.fileOnDisk media.file_path) then
          if cfg.skip_offline_media then
            runItemsF cfg p env rest
              { st with progress :=
                { st.progress with warnings :=
                  st.progress.warnings ++ ["Skipping offline media: " ++ media.file_path] } }
          else
            runItemsF cfg p env rest
              { st with progress :=
                { st.progress with errors :=
                  st.progress.errors ++
                    [{ file_path := media.file_path
                       error_message := "File is offline"
                       is_fatal := false }] } }
        else
          if modePolls env.processing_mode then
            let q := ffmpegPoll env st
            if q.2 then (q.1, true)
            else
              runItemsF cfg p env rest
                { q.1 with progress :=
                  { q.1.progress with files_processed := q.1.progress.files_processed + 1 } }
          else
            runItemsF cfg p env rest
              { st with progress :=
                { st.progress with files_processed := st.progress.files_processed + 1 } }

/-- `ConsolidationEngine::run` in the refined cancellation model: the same
five phases and checkpoints as `ConsolidationEngine.run`, with the
in-processing FFmpeg polls of phase 4 included.  `none` is the Rust `Err`
path — reached by a checkpoint bail-out (status `Cancelled`) or by an
FFmpeg-poll bail-out (status left as it was, i.e. `Processing`). -/
def ConsolidationEngine.runF (cfg : ConsolidationConfig) (p : PremiereProject) (env : RunEnvF) :
    RunSt × Option RunResult :=
  let st : RunSt :=
    { progress :=
      { status := ConsolidationStatus.Pending
        current_operation := ""
        errors := []
        warnings := []
        files_processed := 0
        files_total := 0 }
      checksDone := 0
      projectWritten := false }
  let st := update_status st ConsolidationStatus.Analyzing "Analyzing sequences..."
  let usage := runUsage cfg p
  let r1 := check_cancelled env.toRunEnv st
  if r1.2 then (r1.1, none) else
  let st := { r1.1 with progress := { r1.1.progress with files_total := usage.used_media.length } }
  let r2 := check_cancelled env.toRunEnv st
  if r2.2 then (r2.1, none) else
  let st := update_status r2.1 ConsolidationStatus.Processing "Creating output directories..."
  let r3 := check_cancelled env.toRunEnv st
  if r3.2 then (r3.1, none) else
  let r4 := runItemsF cfg p env usage.used_media r3.1
  if r4.2 then (r4.1, none) else
  let r5 := check_cancelled env.toRunEnv r4.1
  if r5.2 then (r5.1, none) else
  let st := update_status r5.1 ConsolidationStatus.WritingProject "Creating new project file..."
  let st := { st with projectWritten := true }
  let st := update_status st ConsolidationStatus.Completed "Consolidation complete"
  (st,
    some
      { success := st.progress.errors.all (fun e => !e.is_fatal)
        files_processed := st.progress.files_processed
        errors := st.progress.errors
        warnings := st.progress.warnings })

/-! ## Project-file rewriting (consolidation.rs, lines 707-754)

`write_project_file` decompresses the original XML, then for every
`(original, new)` entry of the path mapping performs three global string
replacements — the path as stored, the path with `/` mapped to `\`, and the
path with `\` mapped to `/` — and recompresses the result.  Documents are
modelled as `List Char` and `String::replace` as `replaceAll`. -/

/-- One scan of Rust `str::replace` for a non-empty pattern: leftmost,
non-overlapping, all occurrences. -/
def replaceAllGo (pat rep : List Char) : List Char → List Char
  | [] => []
  | c :: rest =>
    if pat.isPrefixOf (c :: rest) then
      rep ++ replaceAllGo pat rep (rest.drop (pat.length - 1))
    else
      c :: replaceAllGo pat rep rest
termination_by l => l.length
decreasing_by
  · simp only [List.length_cons, List.length_drop]
    omega
  · simp only [List.length_cons]
    omega

/-- Rust `String::replace(pat, rep)` on `List Char` (the empty pattern
matches at every character boundary, as in Rust). -/
def replaceAll (pat rep content : List Char) : List Char :=
  if pat = [] then rep ++ content.flatMap (fun c => c :: rep)
  else replaceAllGo pat rep content

/-- `str::replace('/', "\\")`. -/
def slashToBack (s : List Char) : List Char :=
  s.map (fun c => if c = '/' then '\\' else c)

/-- `str::replace('\\', "/")`. -/
def backToSlash (s : List Char) : List Char :=
  s.map (fun c => if c = '\\' then '/' else c)

/-- The three replacements `write_project_file` performs for one path-mapping
entry (consolidation.rs, lines 718-732). -/
def rewriteEntry (content : List Char) (original new : List Char) : List Char :=
  let c1 := replaceAll original new content
  let c2 := replaceAll (slashToBack original) (slashToBack new) c1
  replaceAll (backToSlash original) (backToSlash new) c2

/-- The path-substitution core of `write_project_file`: fold the three-form
replacement over the path-mapping entries. -/
def rewriteContent (path_mapping : List (List Char × List Char)) (content : List Char) :
    List Char :=
  path_mapping.foldl (fun c kv => rewriteEntry c kv.1 kv.2) content

/-! ## Concrete fixtures used by counterexamples and witnesses -/

/-- Fixture constructor: a track clip with defaulted timeline fields. -/
def mkClip (id : String) (mref : Option String) (ct : ClipType) (inp outp : Int) : TrackClip :=
  { object_id := id
    name := id
    start_ticks := 0
    end_ticks := outp - inp
    in_point_ticks := inp
    out_point_ticks := outp
    media_ref := mref
    clip_type := ct
    speed := 1.0 }

/-- Fixture constructor: a single-video-track sequence. -/
def mkSeq (id : String) (clips : List TrackClip) (nested : List String) : Sequence :=
  { object_id := id
    name := id
    duration_ticks := 0
    frame_rate := { numerator := 24, denominator := 1 }
    video_tracks :=
      [{ object_id := id ++ ".v1", name := "V1", track_type := TrackType.Video, clips := clips }]
    audio_tracks := []
    nested_sequences := nested }

/-- Fixture constructor: an online video media file. -/
def mkMedia (id path : String) (dur : Int) : MediaFile :=
  { object_id := id
    file_path := path
    has_video := true
    has_audio := true
    duration_ticks := dur
    frame_rate := none
    proxy_path := none
    is_offline := false
    media_type := MediaType.Video }

/-- Fixture constructor: a project with the given sequences and media map. -/
def mkProject (seqs : List Sequence) (media : List (String × MediaFile)) : PremiereProject :=
  { file_path := "project.prproj"
    name := "project"
    version := 1
    bins := []
    sequences := seqs
    media_files := media
    project_items := [] }

/-- C1 counterexample fixture: one clip references media `X`, but the
project's media map is empty (a dangling media reference). -/
def cexProjectC1 : PremiereProject :=
  mkProject [mkSeq "S" [mkClip "c" (some "X") ClipType.Standard 0 10] []] []

/-- C1 witness fixture: the single clip reference resolves in the media map. -/
def witProjectC1 : PremiereProject :=
  mkProject [mkSeq "S" [mkClip "c" (some "M") ClipType.Standard 0 10] []]
    [("M", mkMedia "M" "/m/A.mov" 1000)]

/-- C5 witness fixture: two multicam angles, `M1` active and `M2` inactive. -/
def mcAngles : List MulticamAngle :=
  [{ name := "a1", media_ref := "M1", is_active := true },
   { name := "a2", media_ref := "M2", is_active := false }]

/-- C5 witness fixture: a multicam clip over `mcAngles`. -/
def mcClip : TrackClip := mkClip "mc" none (ClipType.Multicam mcAngles) 0 10

/-- C5 witness fixture: an analyzer with `include_all_multicam_angles(false)`. -/
def anC5 : SequenceAnalyzer :=
  (SequenceAnalyzer.new (mkProject [] [])).include_all_multicam_angles false

/-- C6 fixture: sequence `A` nests `B`, which nests `A` (a cycle). -/
def cycProject : PremiereProject :=
  mkProject [mkSeq "A" [] ["B"], mkSeq "B" [] ["A"]] []

/-- C7 witness fixture: one used media file that is offline. -/
def wProjectC7 : PremiereProject :=
  mkProject [mkSeq "S" [mkClip "c" (some "M") ClipType.Standard 0 10] []]
    [("M", mkMedia "M" "/gone/A.mov" 1000)]

/-- C7 witness fixture: configuration with `skip_offline_media = false`. -/
def wCfgC7 : ConsolidationConfig :=
  { sequences := ["S"], handle_frames := 0, include_unused_multicam_angles := true,
    skip_offline_media := false }

/-- C7 witness fixture: nothing on disk, cancellation never requested. -/
def wEnvC7 : RunEnv := { cancelFrom := none, fileOnDisk := fun _ => false }

/-- C8 fixture: two used media files, both online. -/
def cexProjectC8 : PremiereProject :=
  mkProject
    [mkSeq "S" [mkClip "c1" (some "M1") ClipType.Standard 0 10,
      mkClip "c2" (some "M2") ClipType.Standard 0 10] []]
    [("M1", mkMedia "M1" "/m/1.mov" 1000), ("M2", mkMedia "M2" "/m/2.mov" 1000)]

/-- C8 fixture: configuration analyzing sequence `S`. -/
def cexCfgC8 : ConsolidationConfig :=
  { sequences := ["S"], handle_frames := 0, include_unused_multicam_angles := true,
    skip_offline_media := false }

/-- C8 fixture: the cancel flag becomes observable at checkpoint 4 — the
check made before the second media item, i.e. while items are processed. -/
def cexEnvC8 : RunEnv := { cancelFrom := some 4, fileOnDisk := fun _ => true }

/-- C8 counterexample fixture (refined model): a transcode run on which the
cancel flag becomes observable at observation point 4 — the FFmpeg polling
window of the first media item, i.e. while that item is being processed
(points 0-2 are the pre-loop checkpoints, point 3 the first per-item
checkpoint). -/
def cexEnvC8F : RunEnvF :=
  { cancelFrom := some 4
    fileOnDisk := fun _ => true
    processing_mode := ProcessingModeConfig.Transcode }

/-- C8 witness fixture (refined model): the flag becomes observable at
observation point 3, the per-item checkpoint of the first media item. -/
def witEnvC8F : RunEnvF :=
  { cancelFrom := some 3
    fileOnDisk := fun _ => true
    processing_mode := ProcessingModeConfig.Transcode }

/-- C9 counterexample fixture: the original path. -/
def origC9 : List Char := "/Media/A.mov".toList

/-- C9 counterexample fixture: the new path; consolidating into `/out`
makes the new path end with the original path string. -/
def newC9 : List Char := "/out/Media/A.mov".toList

/-- C9 counterexample fixture: a document holding the original path. -/
def contentC9 : List Char := "<FilePath>/Media/A.mov</FilePath>".toList

/-- C9 witness fixture: the original path. -/
def origW9 : List Char := "/m/A.mov".toList

/-- C9 witness fixture: the new path. -/
def newW9 : List Char := "/out/Media/A.mov".toList

/-- C9 witness fixture: a document holding the original path. -/
def contentW9 : List Char := "<FilePath>/m/A.mov</FilePath>".toList

/-! ## Theorems -/

/-- `TimeRange::new` always establishes the invariant `start ≤ end`. -/
theorem TimeRange.new_valid (a b : Int) :
    (TimeRange.new a b).start_ticks ≤ (TimeRange.new a b).end_ticks :=
  min_le_max

/-- C2, counterexample: at `a = [5,5]`, `b = [0,100]`, `gap_tolerance = -1`
(the claim quantifies over every gap tolerance), `merge_with` returns `some`
although `max(a.start, b.start) ≤ min(a.end, b.end) + g` fails, so the
claimed "returns Some exactly when ..." is false as stated. -/
theorem C2_counterexample :
    ((TimeRange.new 5 5).merge_with (TimeRange.new 0 100) (-1)).isSome = true ∧
    ¬ (max (TimeRange.new 5 5).start_ticks (TimeRange.new 0 100).start_ticks ≤
        min (TimeRange.new 5 5).end_ticks (TimeRange.new 0 100).end_ticks + (-1)) := by
  decide

/-- C2, amended: `merge_with` is commutative unconditionally; wherever it
returns `some`, the value is exactly `TimeRange::new(min of starts, max of
ends)` — the bounding range as normalised by the constructor; and the
claimed characterization "`some` exactly when
`max(a.start, b.start) ≤ min(a.end, b.end) + g`" holds under the two
hypotheses `a.start ≤ a.end + g` and `b.start ≤ b.end + g`, which the
counterexample violates (there `a.start > a.end + g`) and which follow from
the constructor invariant `start ≤ end` whenever `g ≥ 0`. -/
theorem C2_merge_with_spec (a b : TimeRange) (g : Int) :
    a.merge_with b g = b.merge_with a g ∧
    (∀ m, a.merge_with b g = some m →
      m = TimeRange.new (min a.start_ticks b.start_ticks) (max a.end_ticks b.end_ticks)) ∧
    (a.start_ticks ≤ a.end_ticks + g → b.start_ticks ≤ b.end_ticks + g →
      ((a.merge_with b g).isSome = true ↔
        max a.start_ticks b.start_ticks ≤ min a.end_ticks b.end_ticks + g)) := by
  refine ⟨?_, ?_, ?_⟩
  · unfold TimeRange.merge_with
    split
    · rename_i h
      rw [if_pos (And.intro h.2 h.1)]
      rw [min_comm b.start_ticks a.start_ticks, max_comm b.end_ticks a.end_ticks]
    · rename_i h
      rw [if_neg]
      intro hc
      exact h (And.intro hc.2 hc.1)
  · intro m hm
    unfold TimeRange.merge_with at hm
    split at hm
    · exact (Option.some.inj hm).symm
    · exact Option.noConfusion hm
  · intro h1 h2
    unfold TimeRange.merge_with
    rw [← min_add_add_right]
    split
    · rename_i h
      simp only [Option.isSome_some]
      rw [max_le_iff, le_min_iff, le_min_iff]
      constructor
      · intro _
        omega
      · intro _
        trivial
    · rename_i h
      simp only [Option.isSome_none]
      rw [max_le_iff, le_min_iff, le_min_iff]
      constructor
      · intro hft
        exact Bool.noConfusion hft
      · intro hp
        exfalso
        omega

/-- C2, witness: the amended statement at `a = [0,10]`, `b = [5,20]`,
`g = 0`: commutativity holds, and the iff's two hypotheses are discharged
concretely. -/
theorem C2_merge_with_spec_witness :
    (TimeRange.new 0 10).merge_with (TimeRange.new 5 20) 0 =
      (TimeRange.new 5 20).merge_with (TimeRange.new 0 10) 0 ∧
    (((TimeRange.new 0 10).merge_with (TimeRange.new 5 20) 0).isSome = true ↔
      max (TimeRange.new 0 10).start_ticks (TimeRange.new 5 20).start_ticks ≤
        min (TimeRange.new 0 10).end_ticks (TimeRange.new 5 20).end_ticks + 0) :=
  ⟨(C2_merge_with_spec (TimeRange.new 0 10) (TimeRange.new 5 20) 0).1,
    (C2_merge_with_spec (TimeRange.new 0 10) (TimeRange.new 5 20) 0).2.2
      (by decide) (by decide)⟩

/-- C4, counterexample: the range `[100,200]` (which satisfies the claim's
hypotheses with `handle_ticks = 0 ≥ 0`) clamped by `with_handles` to a media
duration of `50` yields `[100,50]`, violating the invariant
`start_ticks ≤ end_ticks` the claim asserts. -/
theorem C4_counterexample :
    (TimeRange.new 100 200).start_ticks ≤ (TimeRange.new 100 200).end_ticks ∧
    (0 : Int) ≤ 0 ∧
    ¬ (((TimeRange.new 100 200).with_handles 0 50).start_ticks ≤
        ((TimeRange.new 100 200).with_handles 0 50).end_ticks) := by
  decide

/-- C4, amended: `with_handles` always clamps (`start ≥ 0` and
`end ≤ media_duration`, for every input); under the claim's hypotheses
(`start ≤ end`, `handle_ticks ≥ 0`) the result satisfies the invariant
`start ≤ end` if and only if `0 ≤ media_duration`,
`start − handle ≤ media_duration` and `0 ≤ end + handle`. -/
theorem C4_with_handles_spec (r : TimeRange) (h d : Int)
    (hr : r.start_ticks ≤ r.end_ticks) (hh : 0 ≤ h) :
    (0 ≤ (r.with_handles h d).start_ticks ∧ (r.with_handles h d).end_ticks ≤ d) ∧
    ((r.with_handles h d).start_ticks ≤ (r.with_handles h d).end_ticks ↔
      0 ≤ d ∧ r.start_ticks - h ≤ d ∧ 0 ≤ r.end_ticks + h) := by
  unfold TimeRange.with_handles
  constructor
  · exact ⟨le_max_right _ _, min_le_right _ _⟩
  · rw [max_le_iff, le_min_iff, le_min_iff]
    omega

/-- C4, witness: the amended statement applied to `r = [0,10]`,
`handle_ticks = 2`, `media_duration = 100`. -/
theorem C4_with_handles_spec_witness :
    ((TimeRange.new 0 10).start_ticks ≤ (TimeRange.new 0 10).end_ticks ∧ (0 : Int) ≤ 2) ∧
    ((0 ≤ ((TimeRange.new 0 10).with_handles 2 100).start_ticks ∧
        ((TimeRange.new 0 10).with_handles 2 100).end_ticks ≤ 100) ∧
      (((TimeRange.new 0 10).with_handles 2 100).start_ticks ≤
          ((TimeRange.new 0 10).with_handles 2 100).end_ticks ↔
        (0 : Int) ≤ 100 ∧ (TimeRange.new 0 10).start_ticks - 2 ≤ 100 ∧
          0 ≤ (TimeRange.new 0 10).end_ticks + 2)) :=
  ⟨⟨by decide, by decide⟩,
    C4_with_handles_spec (TimeRange.new 0 10) 2 100 (by decide) (by decide)⟩

/-- Helper: the exact result of a successful gap-0 merge when the left range
is valid and starts no later than the right one. -/
theorem merge_with_some_eq (a b : TimeRange)
    (ha : a.start_ticks ≤ a.end_ticks) (hab : a.start_ticks ≤ b.start_ticks)
    (hc : a.end_ticks + 0 ≥ b.start_ticks ∧ b.end_ticks + 0 ≥ a.start_ticks) :
    a.merge_with b 0 =
      some { start_ticks := a.start_ticks, end_ticks := max a.end_ticks b.end_ticks } := by
  unfold TimeRange.merge_with TimeRange.new
  rw [if_pos hc]
  simp only [Option.some.injEq, TimeRange.mk.injEq]
  omega

/-- Helper: a failed gap-0 merge of a start-ordered pair of valid ranges
means the left range ends strictly before the right one begins. -/
theorem merge_with_none_lt (a b : TimeRange)
    (hb : b.start_ticks ≤ b.end_ticks) (hab : a.start_ticks ≤ b.start_ticks)
    (hn : a.merge_with b 0 = none) : a.end_ticks < b.start_ticks := by
  unfold TimeRange.merge_with at hn
  by_cases hc : a.end_ticks + 0 ≥ b.start_ticks ∧ b.end_ticks + 0 ≥ a.start_ticks
  · rw [if_pos hc] at hn
    exact Option.noConfusion hn
  · omega

/-- Helper: the fold of `optimize_time_ranges` at gap 0, on a start-sorted
list of valid ranges, keeps the first start, produces a start-sorted,
strictly non-overlapping list, and preserves validity. -/
theorem optLoop_spec (rs : List TimeRange) : ∀ (last : TimeRange),
    last.start_ticks ≤ last.end_ticks →
    (∀ x ∈ rs, x.start_ticks ≤ x.end_ticks) →
    (∀ x ∈ rs, last.start_ticks ≤ x.start_ticks) →
    List.Sorted startLE rs →
    (∃ e tl, optLoop 0 last rs = { start_ticks := last.start_ticks, end_ticks := e } :: tl ∧
      last.end_ticks ≤ e) ∧
    List.Sorted startLE (optLoop 0 last rs) ∧
    List.Chain' (fun x y => x.end_ticks < y.start_ticks) (optLoop 0 last rs) ∧
    (∀ x ∈ optLoop 0 last rs, x.start_ticks ≤ x.end_ticks) := by
  induction rs with
  | nil =>
    intro last hlast _ _ _
    refine ⟨⟨last.end_ticks, [], rfl, le_refl _⟩, ?_, ?_, ?_⟩
    · exact List.sorted_singleton last
    · exact List.chain'_singleton last
    · intro x hx
      simp only [optLoop, List.mem_singleton] at hx
      exact hx ▸ hlast
  | cons r rs' ih =>
    intro last hlast hv hs hp
    have hrv : r.start_ticks ≤ r.end_ticks := hv r (by simp)
    have hrs : last.start_ticks ≤ r.start_ticks := hs r (by simp)
    by_cases hc : last.end_ticks + 0 ≥ r.start_ticks ∧ r.end_ticks + 0 ≥ last.start_ticks
    · have hme := merge_with_some_eq last r hlast hrs hc
      have hunf : optLoop 0 last (r :: rs') =
          optLoop 0 ⟨last.start_ticks, max last.end_ticks r.end_ticks⟩ rs' := by
        simp [optLoop, hme]
      have ihm := ih ⟨last.start_ticks, max last.end_ticks r.end_ticks⟩
        (le_trans hlast (le_max_left _ _))
        (fun x hx => hv x (List.mem_cons_of_mem _ hx))
        (fun x hx => hs x (List.mem_cons_of_mem _ hx))
        (List.sorted_cons.mp hp).2
      rw [hunf]
      obtain ⟨⟨e, tl, heq, hle⟩, hsort, hchain, hval⟩ := ihm
      refine ⟨⟨e, tl, heq, le_trans (le_max_left _ _) hle⟩, hsort, hchain, hval⟩
    · have hn : last.merge_with r 0 = none := by
        unfold TimeRange.merge_with
        rw [if_neg hc]
      have hlt : last.end_ticks < r.start_ticks := merge_with_none_lt last r hrv hrs hn
      have hunf : optLoop 0 last (r :: rs') = last :: optLoop 0 r rs' := by
        simp [optLoop, hn]
      have ihr := ih r hrv (fun x hx => hv x (List.mem_cons_of_mem _ hx))
        (fun x hx => (List.sorted_cons.mp hp).1 x hx)
        (List.sorted_cons.mp hp).2
      obtain ⟨⟨e, tl, heq, hle⟩, hsort, hchain, hval⟩ := ihr
      rw [hunf]
      refine ⟨⟨last.end_ticks, optLoop 0 r rs', rfl, le_refl _⟩, ?_, ?_, ?_⟩
      · apply List.sorted_cons.mpr
        refine ⟨?_, hsort⟩
        intro x hx
        have hxs : r.start_ticks ≤ x.start_ticks := by
          rw [heq] at hx hsort
          rcases List.mem_cons.mp hx with hx1 | hx2
          · rw [hx1]
          · exact (List.sorted_cons.mp hsort).1 x hx2
        exact le_trans hrs hxs
      · rw [heq]
        rw [heq] at hchain
        exact List.chain'_cons.mpr ⟨hlt, hchain⟩
      · intro x hx
        rcases List.mem_cons.mp hx with hx1 | hx2
        · exact hx1 ▸ hlast
        · exact hval x hx2

/-- Helper: on a strictly non-overlapping list the fold merges nothing. -/
theorem optLoop_of_chain (tl : List TimeRange) : ∀ (hd : TimeRange),
    List.Chain' (fun x y => x.end_ticks < y.start_ticks) (hd :: tl) →
    optLoop 0 hd tl = hd :: tl := by
  induction tl with
  | nil =>
    intro hd _
    rfl
  | cons r rs ih =>
    intro hd hch
    have h1 : hd.end_ticks < r.start_ticks := (List.chain'_cons.mp hch).1
    have hn : hd.merge_with r 0 = none := by
      unfold TimeRange.merge_with
      rw [if_neg]
      intro hcc
      omega
    simp only [optLoop, hn]
    rw [ih r (List.chain'_cons.mp hch).2]

/-- C3, counterexample: `TimeRange` values violating `start ≤ end` do reach
`optimize_time_ranges` in the program (`with_handles` produces them when the
media duration is shorter than the clip's in point, and the consolidation
engine optimizes exactly those handle-adjusted ranges), and on such an input
the result of `optimize(·, 0)` is NOT strictly non-overlapping: here the
first output range ends at 10 while the second begins at 5. -/
theorem C3_counterexample :
    optimize_time_ranges [TimeRange.new 0 10, (TimeRange.new 5 7).with_handles 0 (-100)] 0 =
      [{ start_ticks := 0, end_ticks := 10 }, { start_ticks := 5, end_ticks := -100 }] ∧
    ¬ List.Chain' (fun x y => x.end_ticks < y.start_ticks)
      (optimize_time_ranges [TimeRange.new 0 10, (TimeRange.new 5 7).with_handles 0 (-100)] 0) := by
  constructor
  · decide
  · intro h
    rw [show optimize_time_ranges
        [TimeRange.new 0 10, (TimeRange.new 5 7).with_handles 0 (-100)] 0 =
        [{ start_ticks := 0, end_ticks := 10 }, { start_ticks := 5, end_ticks := -100 }]
      from by decide] at h
    exact absurd (List.chain'_cons.mp h).1 (by decide)

/-- C3, amended: for every list of ranges satisfying the construction
invariant `start ≤ end`, `optimize_time_ranges(ranges, 0)` is sorted by
start, strictly non-overlapping (each range ends strictly before the next
begins), and idempotent (applying it to its own output returns the same
list). -/
theorem C3_optimize_spec (ranges : List TimeRange)
    (hv : ∀ x ∈ ranges, x.start_ticks ≤ x.end_ticks) :
    List.Sorted startLE (optimize_time_ranges ranges 0) ∧
    List.Chain' (fun x y => x.end_ticks < y.start_ticks) (optimize_time_ranges ranges 0) ∧
    optimize_time_ranges (optimize_time_ranges ranges 0) 0 = optimize_time_ranges ranges 0 := by
  cases hsrt : ranges.insertionSort startLE with
  | nil =>
    have hout : optimize_time_ranges ranges 0 = [] := by
      unfold optimize_time_ranges
      rw [hsrt]
    rw [hout]
    refine ⟨List.sorted_nil, List.chain'_nil, ?_⟩
    unfold optimize_time_ranges
    rfl
  | cons first rest =>
    have hsorted : List.Sorted startLE (first :: rest) := by
      rw [← hsrt]
      exact List.sorted_insertionSort startLE ranges
    have hvs : ∀ x ∈ first :: rest, x.start_ticks ≤ x.end_ticks := by
      intro x hx
      apply hv
      have hmm := (List.mem_insertionSort startLE (l := ranges) (x := x))
      rw [hsrt] at hmm
      exact hmm.mp hx
    obtain ⟨⟨e, tl, heq, hle⟩, hsort, hchain, hval⟩ :=
      optLoop_spec rest first (hvs first (by simp))
        (fun x hx => hvs x (List.mem_cons_of_mem _ hx))
        (fun x hx => (List.sorted_cons.mp hsorted).1 x hx)
        (List.sorted_cons.mp hsorted).2
    have hout : optimize_time_ranges ranges 0 = optLoop 0 first rest := by
      unfold optimize_time_ranges
      rw [hsrt]
    have hid : (optLoop 0 first rest).insertionSort startLE = optLoop 0 first rest :=
      hsort.insertionSort_eq
    have hout2 : optimize_time_ranges (optLoop 0 first rest) 0 = optLoop 0 first rest := by
      unfold optimize_time_ranges
      rw [hid, heq]
      exact optLoop_of_chain tl { start_ticks := first.start_ticks, end_ticks := e }
        (heq ▸ hchain)
    rw [hout]
    exact ⟨hsort, hchain, hout2⟩

/-- C3, witness: the amended statement applied to the concrete valid list
`[[0,10], [5,20], [100,110]]`. -/
theorem C3_optimize_spec_witness :
    List.Sorted startLE
      (optimize_time_ranges [TimeRange.new 0 10, TimeRange.new 5 20, TimeRange.new 100 110] 0) ∧
    List.Chain' (fun x y => x.end_ticks < y.start_ticks)
      (optimize_time_ranges [TimeRange.new 0 10, TimeRange.new 5 20, TimeRange.new 100 110] 0) ∧
    optimize_time_ranges
        (optimize_time_ranges [TimeRange.new 0 10, TimeRange.new 5 20, TimeRange.new 100 110] 0) 0 =
      optimize_time_ranges [TimeRange.new 0 10, TimeRange.new 5 20, TimeRange.new 100 110] 0 :=
  C3_optimize_spec [TimeRange.new 0 10, TimeRange.new 5 20, TimeRange.new 100 110] (by decide)

/-- Helper: `updateEntry` adds exactly the key `k` to the key set. -/
theorem mem_keys_updateEntry (k m : String) (dflt : MediaUsageInfo)
    (f : MediaUsageInfo → MediaUsageInfo) (u : List (String × MediaUsageInfo)) :
    m ∈ (updateEntry k dflt f u).map Prod.fst ↔ m = k ∨ m ∈ u.map Prod.fst := by
  induction u with
  | nil => simp [updateEntry]
  | cons kv rest ih =>
    obtain ⟨k', v⟩ := kv
    by_cases hk : k' = k
    · subst hk
      simp [updateEntry]
    · have hkb : (k' == k) = false := by
        simp [hk]
      simp only [updateEntry, hkb, Bool.false_eq_true, if_false, List.map_cons, List.mem_cons, ih]
      tauto

/-- Helper: `add_media_usage` adds exactly the key `media_id` to the key set
of `used_media`. -/
theorem mem_keys_addMediaUsage (a : SequenceAnalyzer) (media_id : String) (clip : TrackClip)
    (sequence_id m : String) (u : List (String × MediaUsageInfo)) (im ig : Bool) :
    m ∈ (addMediaUsage a media_id clip sequence_id u im ig).map Prod.fst ↔
      m = media_id ∨ m ∈ u.map Prod.fst := by
  unfold addMediaUsage
  exact mem_keys_updateEntry media_id m _ _ u

/-- Helper: key-set effect of the multicam fold of `analyze_clip`. -/
theorem mem_keys_multicam_fold (a : SequenceAnalyzer) (clip : TrackClip)
    (sequence_id m : String) (angles : List MulticamAngle) :
    ∀ u : List (String × MediaUsageInfo),
    (m ∈ (angles.foldl
        (fun u angle =>
          if angle.is_active || a.include_unused_multicam_angles then
            addMediaUsage a angle.media_ref clip sequence_id u true false
          else u) u).map Prod.fst ↔
      m ∈ u.map Prod.fst ∨ ∃ angle ∈ angles, angle.media_ref = m ∧
        (angle.is_active = true ∨ a.include_unused_multicam_angles = true)) := by
  induction angles with
  | nil =>
    intro u
    simp
  | cons ang rest ih =>
    intro u
    simp only [List.foldl_cons]
    by_cases hcond : (ang.is_active || a.include_unused_multicam_angles) = true
    · rw [if_pos hcond]
      rw [ih, mem_keys_addMediaUsage]
      rw [Bool.or_eq_true] at hcond
      simp only [List.exists_mem_cons_iff]
      constructor
      · rintro ((h1 | h2) | h3)
        · exact Or.inr (Or.inl ⟨h1.symm, hcond⟩)
        · exact Or.inl h2
        · exact Or.inr (Or.inr h3)
      · rintro (h1 | ⟨h2, h3⟩ | h4)
        · exact Or.inl (Or.inr h1)
        · exact Or.inl (Or.inl h2.symm)
        · exact Or.inr h4
    · rw [if_neg hcond]
      rw [ih]
      rw [Bool.or_eq_true] at hcond
      simp only [List.exists_mem_cons_iff]
      constructor
      · rintro (h1 | h2)
        · exact Or.inl h1
        · exact Or.inr (Or.inr h2)
      · rintro (h1 | ⟨h2, h3⟩ | h4)
        · exact Or.inl h1
        · exact absurd h3 hcond
        · exact Or.inr h4

/-- C5: when `analyze_clip` dispatches on a `Multicam` clip, a media id is a
key of the updated `used_media` exactly when it already was one, or some
angle of the clip references it and that angle is active or
`include_all_multicam_angles` is set.  In particular, with the setting false
only active angles' media are added, and with it true all angles' media are. -/
theorem C5_multicam_usage_iff (a : SequenceAnalyzer) (clip : TrackClip)
    (angles : List MulticamAngle) (sequence_id m : String)
    (u : List (String × MediaUsageInfo))
    (hc : clip.clip_type = ClipType.Multicam angles) :
    (m ∈ (analyzeClipStep a clip sequence_id u).map Prod.fst ↔
      m ∈ u.map Prod.fst ∨ ∃ angle ∈ angles, angle.media_ref = m ∧
        (angle.is_active = true ∨ a.include_unused_multicam_angles = true)) := by
  unfold analyzeClipStep
  rw [hc]
  exact mem_keys_multicam_fold a clip sequence_id m angles u

/-- C5, witness: the characterization applied to a concrete multicam clip
with `M1` active, `M2` inactive, and `include_all_multicam_angles(false)`. -/
theorem C5_multicam_usage_iff_witness :
    mcClip.clip_type = ClipType.Multicam mcAngles ∧
    (("M2" ∈ (analyzeClipStep anC5 mcClip "S" []).map Prod.fst) ↔
      ("M2" ∈ ([] : List (String × MediaUsageInfo)).map Prod.fst ∨
        ∃ angle ∈ mcAngles, angle.media_ref = "M2" ∧
          (angle.is_active = true ∨ anC5.include_unused_multicam_angles = true))) :=
  ⟨rfl, C5_multicam_usage_iff anC5 mcClip mcAngles "S" "M2" [] rfl⟩

/-- C1, counterexample: `analyze_sequences` keys `used_media` by whatever
media id a clip references — `add_media_usage` inserts the id even when it
is not a key of the project's `media_files` map (it then takes `i64::MAX`
as the duration) — so with a dangling reference `X` the union of used and
unused ids strictly exceeds the set of all MediaFile GUIDs. -/
theorem C1_counterexample :
    ¬ (∀ g : String,
        ((g ∈ ((SequenceAnalyzer.new cexProjectC1).analyze_sequences ["S"]).used_media.map
            Prod.fst ∨
          g ∈ ((SequenceAnalyzer.new cexProjectC1).analyze_sequences ["S"]).unused_media) ↔
        g ∈ cexProjectC1.media_files.map Prod.fst)) := by
  intro h
  have hused : ((SequenceAnalyzer.new cexProjectC1).analyze_sequences ["S"]).used_media.map
      Prod.fst = ["X"] := by
    simp [SequenceAnalyzer.analyze_sequences, analyzeLoop, cexProjectC1, mkProject, mkSeq,
      mkClip, sequenceTasks, analyzeClipStep, addMediaUsage, updateEntry, SequenceAnalyzer.new,
      List.find?]
  have hx := (h "X").mp (Or.inl (by rw [hused]; simp))
  simp [cexProjectC1, mkProject] at hx

/-- C1, amended: for every analyzer and id list, the union of the
`used_media` key set and the `unused_media` set equals the set of all
MediaFile GUIDs *united with the used keys* (so it contains all GUIDs, with
equality exactly when every used key is a project media GUID), and used and
unused are always disjoint; `analyze_all` is `analyze_sequences` on all
sequence ids. -/
theorem C1_used_unused_partition (a : SequenceAnalyzer) (sequence_ids : List String) :
    (∀ g : String,
      ((g ∈ (a.analyze_sequences sequence_ids).used_media.map Prod.fst ∨
        g ∈ (a.analyze_sequences sequence_ids).unused_media) ↔
      (g ∈ a.project.media_files.map Prod.fst ∨
        g ∈ (a.analyze_sequences sequence_ids).used_media.map Prod.fst))) ∧
    (∀ g : String, ¬ (g ∈ (a.analyze_sequences sequence_ids).used_media.map Prod.fst ∧
        g ∈ (a.analyze_sequences sequence_ids).unused_media)) ∧
    ((∀ g ∈ (a.analyze_sequences sequence_ids).used_media.map Prod.fst,
        g ∈ a.project.media_files.map Prod.fst) →
      ∀ g : String,
        ((g ∈ (a.analyze_sequences sequence_ids).used_media.map Prod.fst ∨
          g ∈ (a.analyze_sequences sequence_ids).unused_media) ↔
        g ∈ a.project.media_files.map Prod.fst)) ∧
    SequenceAnalyzer.analyze_all a =
      a.analyze_sequences (a.project.sequences.map (fun s => s.object_id)) := by
  have hmem : ∀ g : String,
      g ∈ (a.analyze_sequences sequence_ids).unused_media ↔
        (g ∈ a.project.media_files.map Prod.fst ∧
          ¬ g ∈ (a.analyze_sequences sequence_ids).used_media.map Prod.fst) := by
    intro g
    unfold SequenceAnalyzer.analyze_sequences
    simp [List.mem_filter, List.elem_iff]
  refine ⟨?_, ?_, ?_, rfl⟩
  · intro g
    rw [hmem g]
    tauto
  · intro g
    rw [hmem g]
    tauto
  · intro hsub g
    rw [hmem g]
    have := fun hg => hsub g hg
    tauto

/-- C1, witness: on a project whose single clip reference resolves in the
media map, the union of used and unused ids is exactly the GUID set. -/
theorem C1_used_unused_partition_witness :
    ("M" ∈ ((SequenceAnalyzer.new witProjectC1).analyze_sequences ["S"]).used_media.map
        Prod.fst ∨
      "M" ∈ ((SequenceAnalyzer.new witProjectC1).analyze_sequences ["S"]).unused_media) ↔
    "M" ∈ witProjectC1.media_files.map Prod.fst := by
  apply (C1_used_unused_partition (SequenceAnalyzer.new witProjectC1) ["S"]).2.2.1
  intro g hg
  have hused : ((SequenceAnalyzer.new witProjectC1).analyze_sequences ["S"]).used_media.map
      Prod.fst = ["M"] := by
    simp [SequenceAnalyzer.analyze_sequences, analyzeLoop, witProjectC1, mkProject, mkSeq,
      mkClip, sequenceTasks, analyzeClipStep, addMediaUsage, updateEntry, SequenceAnalyzer.new,
      List.find?]
  rw [hused] at hg
  have hg' : g = "M" := by simpa using hg
  subst hg'
  simp [witProjectC1, mkProject, SequenceAnalyzer.new]

/-- Helper: `analyzeLoop` preserves distinctness of the analyzed set (ids
are only consed after the membership guard). -/
theorem analyzeLoop_analyzed_nodup (a : SequenceAnalyzer) (tasks : List AnTask)
    (st : AnalyzerState) :
    st.analyzed.Nodup → ((analyzeLoop a tasks st).analyzed).Nodup := by
  induction tasks, st using analyzeLoop.induct a with
  | case1 st =>
    intro h
    simpa [analyzeLoop] using h
  | case2 sequence_id rest st hcon ih =>
    intro h
    rw [analyzeLoop, if_pos hcon]
    exact ih h
  | case3 sequence_id rest st hcon st' s hf ih =>
    intro h
    rw [analyzeLoop, if_neg hcon, hf]
    apply ih
    exact List.nodup_cons.mpr ⟨by simpa using hcon, h⟩
  | case4 sequence_id rest st hcon st' hf ih =>
    intro h
    rw [analyzeLoop, if_neg hcon, hf]
    apply ih
    exact List.nodup_cons.mpr ⟨by simpa using hcon, h⟩
  | case5 c sequence_id rest st nested_id hct ih =>
    intro h
    rw [analyzeLoop, hct]
    exact ih h
  | case6 c sequence_id rest st hct ih =>
    intro h
    rw [analyzeLoop]
    split
    · rename_i nested_id hn
      exact absurd hn (hct nested_id)
    · exact ih h

/-- C6: analysis of every project terminates (the model below is a total
function whose termination measure is the number of not-yet-analyzed project
sequences, mirroring the `analyzed`-set cycle guard), every sequence id that
appears in `sequences_analyzed` appears there exactly once, and on the
concrete cyclic project (`A` nests `B` nests `A`) both sequences appear
exactly once. -/
theorem C6_analysis_terminates_once :
    (∀ (a : SequenceAnalyzer) (ids : List String) (sid : String),
        sid ∈ (a.analyze_sequences ids).sequences_analyzed →
        ((a.analyze_sequences ids).sequences_analyzed).count sid = 1) ∧
    ((SequenceAnalyzer.new cycProject).analyze_sequences ["A"]).sequences_analyzed.count
        "A" = 1 ∧
    ((SequenceAnalyzer.new cycProject).analyze_sequences ["A"]).sequences_analyzed.count
        "B" = 1 := by
  have hcyc : ((SequenceAnalyzer.new cycProject).analyze_sequences ["A"]).sequences_analyzed =
      ["B", "A"] := by
    simp [SequenceAnalyzer.analyze_sequences, analyzeLoop, cycProject, mkProject, mkSeq,
      sequenceTasks, SequenceAnalyzer.new, List.find?]
  refine ⟨?_, ?_, ?_⟩
  · intro a ids sid hmem
    have hnd : ((a.analyze_sequences ids).sequences_analyzed).Nodup :=
      analyzeLoop_analyzed_nodup a (ids.map AnTask.seq)
        { used_media := [], analyzed := [] } List.nodup_nil
    exact List.count_eq_one_of_mem hnd hmem
  · rw [hcyc]
    decide
  · rw [hcyc]
    decide

/-- C6, witness: the general once-only statement applied to the cyclic
project at sequence id `A`. -/
theorem C6_analysis_terminates_once_witness :
    ((SequenceAnalyzer.new cycProject).analyze_sequences ["A"]).sequences_analyzed.count
      "A" = 1 :=
  C6_analysis_terminates_once.1 (SequenceAnalyzer.new cycProject) ["A"] "A"
    (by
      have hcyc : ((SequenceAnalyzer.new cycProject).analyze_sequences
          ["A"]).sequences_analyzed = ["B", "A"] := by
        simp [SequenceAnalyzer.analyze_sequences, analyzeLoop, cycProject, mkProject, mkSeq,
          sequenceTasks, SequenceAnalyzer.new, List.find?]
      rw [hcyc]
      simp)

/-- C10: `SequenceAnalyzer::new` defaults `include_unused_multicam_angles`
to `true`, so an analyzer that is not further configured analyzes exactly as
one with `include_all_multicam_angles(true)`. -/
theorem C10_default_multicam (p : PremiereProject) :
    (SequenceAnalyzer.new p).include_unused_multicam_angles = true ∧
    ∀ sequence_ids : List String,
      (SequenceAnalyzer.new p).analyze_sequences sequence_ids =
        ((SequenceAnalyzer.new p).include_all_multicam_angles true).analyze_sequences
          sequence_ids :=
  ⟨rfl, fun _ => rfl⟩

/-- Helper: `check_cancelled` never touches the recorded errors. -/
theorem check_cancelled_errors (env : RunEnv) (st : RunSt) :
    ((check_cancelled env st).1).progress.errors = st.progress.errors := by
  unfold check_cancelled update_status
  cases env.cancelFrom
  · rfl
  · dsimp only
    split
    · rfl
    · rfl

/-- Helper: `check_cancelled` never touches the written-project flag. -/
theorem check_cancelled_written (env : RunEnv) (st : RunSt) :
    ((check_cancelled env st).1).projectWritten = st.projectWritten := by
  unfold check_cancelled update_status
  cases env.cancelFrom
  · rfl
  · dsimp only
    split
    · rfl
    · rfl

/-- Helper: the exact result of `check_cancelled` when the flag is observed. -/
theorem check_cancelled_of_le (env : RunEnv) (st : RunSt) (k : Nat)
    (hk : env.cancelFrom = some k) (h : k ≤ st.checksDone) :
    check_cancelled env st =
      (update_status { st with checksDone := st.checksDone + 1 }
        ConsolidationStatus.Cancelled "Cancelled by user", true) := by
  unfold check_cancelled
  rw [hk]
  simp [h]

/-- Helper: the exact result of `check_cancelled` when the flag is not yet
observable. -/
theorem check_cancelled_of_gt (env : RunEnv) (st : RunSt) (k : Nat)
    (hk : env.cancelFrom = some k) (h : st.checksDone < k) :
    check_cancelled env st = ({ st with checksDone := st.checksDone + 1 }, false) := by
  unfold check_cancelled
  rw [hk]
  simp
  omega

/-- Helper: the exact result of `check_cancelled` when cancellation is never
requested. -/
theorem check_cancelled_none (env : RunEnv) (st : RunSt)
    (hk : env.cancelFrom = none) :
    check_cancelled env st = ({ st with checksDone := st.checksDone + 1 }, false) := by
  unfold check_cancelled
  rw [hk]
  rfl

/-- Helper: every error the per-media loop adds to the progress record is the
non-fatal "File is offline" error. -/
theorem runItems_errors (cfg : ConsolidationConfig) (p : PremiereProject) (env : RunEnv) :
    ∀ (items : List (String × MediaUsageInfo)) (st : RunSt) (e : ProcessingError),
      e ∈ ((runItems cfg p env items st).1).progress.errors →
      e ∈ st.progress.errors ∨ (e.is_fatal = false ∧ e.error_message = "File is offline") := by
  intro items
  induction items with
  | nil =>
    intro st e he
    exact Or.inl (by simpa [runItems] using he)
  | cons item rest ih =>
    intro st e he
    obtain ⟨media_id, info⟩ := item
    rw [runItems] at he
    cases hc : (check_cancelled env st).2 with
    | true =>
      rw [hc] at he
      simp only [if_true] at he
      rw [check_cancelled_errors] at he
      exact Or.inl he
    | false =>
      rw [hc] at he
      simp only [Bool.false_eq_true, if_false] at he
      cases hl : List.lookup media_id p.media_files with
      | none =>
        rw [hl] at he
        rcases ih _ e he with h1 | h2
        · rw [check_cancelled_errors] at h1
          exact Or.inl h1
        · exact Or.inr h2
      | some media =>
        rw [hl] at he
        dsimp only at he
        cases hd : env.fileOnDisk media.file_path with
        | false =>
          simp only [hd, Bool.not_false, if_true] at he
          cases hs : cfg.skip_offline_media with
          | true =>
            simp only [hs, if_true] at he
            rcases ih _ e he with h1 | h2
            · rw [check_cancelled_errors] at h1
              exact Or.inl h1
            · exact Or.inr h2
          | false =>
            simp only [hs, Bool.false_eq_true, if_false] at he
            rcases ih _ e he with h1 | h2
            · simp only [check_cancelled_errors, List.mem_append, List.mem_singleton] at h1
              rcases h1 with h1a | h1b
              · exact Or.inl h1a
              · exact Or.inr (by rw [h1b]; exact ⟨rfl, rfl⟩)
            · exact Or.inr h2
        | true =>
          simp only [hd, Bool.not_true, Bool.false_eq_true, if_false] at he
          rcases ih _ e he with h1 | h2
          · rw [check_cancelled_errors] at h1
            exact Or.inl h1
          · exact Or.inr h2

/-- Helper: a run that returns a result has ended with status `Completed`,
has the project written, and carries only non-fatal errors. -/
theorem run_completed_cases (cfg : ConsolidationConfig) (p : PremiereProject) (env : RunEnv)
    (st : RunSt) (res : RunResult)
    (h : ConsolidationEngine.run cfg p env = (st, some res)) :
    st.progress.status = ConsolidationStatus.Completed ∧
    (∀ e ∈ st.progress.errors, e.is_fatal = false) ∧
    st.projectWritten = true := by
  unfold ConsolidationEngine.run at h
  dsimp only at h
  split at h
  · simp at h
  split at h
  · simp at h
  split at h
  · simp at h
  split at h
  · simp at h
  split at h
  · simp at h
  rw [Prod.mk.injEq] at h
  obtain ⟨hst, hres⟩ := h
  subst hst
  refine ⟨by simp [update_status], ?_, by simp [update_status]⟩
  intro e he
  simp only [update_status] at he
  rw [check_cancelled_errors] at he
  rcases runItems_errors cfg p env _ _ e he with h1 | h2
  · simp only [check_cancelled_errors, update_status] at h1
    simp at h1
  · exact h2.1

/-- C7: whenever `ConsolidationEngine::run` finishes (returns a result), the
final observable status is `Completed` and every recorded error is
non-fatal; hence the status equals `Failed` exactly when some recorded error
has `is_fatal = true` — both sides being false: the code never constructs a
fatal error and never assigns the `Failed` status, and non-fatal errors
(offline media) leave the final status `Completed`. -/
theorem C7_final_status (cfg : ConsolidationConfig) (p : PremiereProject) (env : RunEnv)
    (h : ((ConsolidationEngine.run cfg p env).2).isSome = true) :
    (ConsolidationEngine.run cfg p env).1.progress.status = ConsolidationStatus.Completed ∧
    (∀ e ∈ (ConsolidationEngine.run cfg p env).1.progress.errors, e.is_fatal = false) ∧
    ((ConsolidationEngine.run cfg p env).1.progress.status = ConsolidationStatus.Failed ↔
      ∃ e ∈ (ConsolidationEngine.run cfg p env).1.progress.errors, e.is_fatal = true) := by
  obtain ⟨res, hres⟩ := Option.isSome_iff_exists.mp h
  have hpair : ConsolidationEngine.run cfg p env =
      ((ConsolidationEngine.run cfg p env).1, some res) := Prod.ext rfl hres
  obtain ⟨hstat, herr, hwr⟩ := run_completed_cases cfg p env _ res hpair
  refine ⟨hstat, herr, ?_⟩
  constructor
  · intro hf
    rw [hstat] at hf
    exact absurd hf (by simp)
  · rintro ⟨e, hmem, hfat⟩
    exact absurd hfat (by simp [herr e hmem])

/-- C7, witness: a run over a project with one used-but-offline media file
(`skip_offline_media = false`) completes with a non-fatal error recorded and
final status `Completed`. -/
theorem C7_final_status_witness :
    (ConsolidationEngine.run wCfgC7 wProjectC7 wEnvC7).1.progress.status =
      ConsolidationStatus.Completed ∧
    (∀ e ∈ (ConsolidationEngine.run wCfgC7 wProjectC7 wEnvC7).1.progress.errors,
      e.is_fatal = false) ∧
    ((ConsolidationEngine.run wCfgC7 wProjectC7 wEnvC7).1.progress.status =
        ConsolidationStatus.Failed ↔
      ∃ e ∈ (ConsolidationEngine.run wCfgC7 wProjectC7 wEnvC7).1.progress.errors,
        e.is_fatal = true) :=
  C7_final_status wCfgC7 wProjectC7 wEnvC7 (by
    simp [ConsolidationEngine.run, runUsage, runItems, check_cancelled, update_status,
      wCfgC7, wProjectC7, wEnvC7, SequenceAnalyzer.analyze_sequences, analyzeLoop,
      SequenceAnalyzer.new, SequenceAnalyzer.with_handles,
      SequenceAnalyzer.include_all_multicam_angles, mkProject, mkSeq, mkClip, mkMedia,
      sequenceTasks, analyzeClipStep, addMediaUsage, updateEntry, List.find?, List.lookup])

/-- Helper: when the cancel flag becomes observable at one of the per-item
checkpoints, the loop bails out with status `Cancelled`, does not touch the
written-project flag, and records no error beyond the per-item non-fatal
offline errors. -/
theorem runItems_cancels (cfg : ConsolidationConfig) (p : PremiereProject) (env : RunEnv)
    (k : Nat) (hk : env.cancelFrom = some k) :
    ∀ (items : List (String × MediaUsageInfo)) (st : RunSt),
      st.checksDone ≤ k → k < st.checksDone + items.length →
      (runItems cfg p env items st).2 = true ∧
      ((runItems cfg p env items st).1).progress.status = ConsolidationStatus.Cancelled ∧
      ((runItems cfg p env items st).1).projectWritten = st.projectWritten ∧
      (∀ e ∈ ((runItems cfg p env items st).1).progress.errors,
        e ∈ st.progress.errors ∨ (e.is_fatal = false ∧ e.error_message = "File is offline")) := by
  intro items
  induction items with
  | nil =>
    intro st h1 h2
    simp only [List.length_nil, Nat.add_zero] at h2
    omega
  | cons item rest ih =>
    intro st h1 h2
    obtain ⟨media_id, info⟩ := item
    by_cases hck : k ≤ st.checksDone
    · have hcc := check_cancelled_of_le env st k hk hck
      rw [runItems, hcc]
      dsimp only
      refine ⟨rfl, by simp [update_status], by simp [update_status], ?_⟩
      intro e he
      simp only [update_status] at he
      exact Or.inl he
    · have hcc := check_cancelled_of_gt env st k hk (by omega)
      rw [runItems, hcc]
      dsimp only
      simp only [Bool.false_eq_true, if_false]
      have hnext1 : ∀ pr : RunProgress,
          (⟨pr, st.checksDone + 1, st.projectWritten⟩ : RunSt).checksDone ≤ k := by
        intro pr
        simp only []
        omega
      have hnext2 : (st.checksDone + 1) + rest.length = st.checksDone + (rest.length + 1) := by
        omega
      cases hl : List.lookup media_id p.media_files with
      | none =>
        obtain ⟨c1, c2, c3, c4⟩ := ih _ (hnext1 _)
          (by
            simp only []
            simp only [List.length_cons] at h2
            omega)
        refine ⟨c1, c2, c3, ?_⟩
        intro e he
        exact (c4 e he).imp (fun hi => hi) (fun hp => hp)
      | some media =>
        cases hd : env.fileOnDisk media.file_path with
        | false =>
          simp only [hd, Bool.not_false, if_true]
          cases hs : cfg.skip_offline_media with
          | true =>
            simp only [hs, if_true]
            obtain ⟨c1, c2, c3, c4⟩ := ih _ (hnext1 _)
              (by
                simp only []
                simp only [List.length_cons] at h2
                omega)
            refine ⟨c1, c2, c3, ?_⟩
            intro e he
            exact (c4 e he).imp (fun hi => hi) (fun hp => hp)
          | false =>
            simp only [hs, Bool.false_eq_true, if_false]
            obtain ⟨c1, c2, c3, c4⟩ := ih _ (hnext1 _)
              (by
                simp only []
                simp only [List.length_cons] at h2
                omega)
            refine ⟨c1, c2, c3, ?_⟩
            intro e he
            rcases c4 e he with hi | hp
            · simp only [List.mem_append, List.mem_singleton] at hi
              rcases hi with hia | hib
              · exact Or.inl hia
              · exact Or.inr (by rw [hib]; exact ⟨rfl, rfl⟩)
            · exact Or.inr hp
        | true =>
          simp only [hd, Bool.not_true, Bool.false_eq_true, if_false]
          obtain ⟨c1, c2, c3, c4⟩ := ih _ (hnext1 _)
            (by
              simp only []
              simp only [List.length_cons] at h2
              omega)
          refine ⟨c1, c2, c3, ?_⟩
          intro e he
          exact (c4 e he).imp (fun hi => hi) (fun hp => hp)

/-- Helper: small-step facts about `update_status`. -/
theorem update_status_checksDone (st : RunSt) (s : ConsolidationStatus) (o : String) :
    (update_status st s o).checksDone = st.checksDone := rfl

/-- Helper: `update_status` keeps the error list. -/
theorem update_status_errors (st : RunSt) (s : ConsolidationStatus) (o : String) :
    (update_status st s o).progress.errors = st.progress.errors := rfl

/-- Helper: when the flag stays unobservable throughout the loop, the loop
completes, advancing one checkpoint per item and touching neither status nor
the written flag, and adds only non-fatal offline errors. -/
theorem runItems_no_cancel (cfg : ConsolidationConfig) (p : PremiereProject) (env : RunEnv)
    (k : Nat) (hk : env.cancelFrom = some k) :
    ∀ (items : List (String × MediaUsageInfo)) (st : RunSt),
      st.checksDone + items.length ≤ k →
      (runItems cfg p env items st).2 = false ∧
      ((runItems cfg p env items st).1).checksDone = st.checksDone + items.length ∧
      ((runItems cfg p env items st).1).progress.status = st.progress.status ∧
      ((runItems cfg p env items st).1).projectWritten = st.projectWritten ∧
      (∀ e ∈ ((runItems cfg p env items st).1).progress.errors,
        e ∈ st.progress.errors ∨ (e.is_fatal = false ∧ e.error_message = "File is offline")) := by
  intro items
  induction items with
  | nil =>
    intro st hle
    refine ⟨rfl, by simp [runItems], rfl, rfl, ?_⟩
    intro e he
    exact Or.inl (by simpa [runItems] using he)
  | cons item rest ih =>
    intro st hle
    obtain ⟨media_id, info⟩ := item
    simp only [List.length_cons] at hle
    have step : ∀ st'' : RunSt, st''.checksDone = st.checksDone + 1 →
        st''.progress.status = st.progress.status →
        st''.projectWritten = st.projectWritten →
        (∀ e ∈ st''.progress.errors,
          e ∈ st.progress.errors ∨ (e.is_fatal = false ∧ e.error_message = "File is offline")) →
        (runItems cfg p env rest st'').2 = false ∧
        ((runItems cfg p env rest st'').1).checksDone = st.checksDone + (rest.length + 1) ∧
        ((runItems cfg p env rest st'').1).progress.status = st.progress.status ∧
        ((runItems cfg p env rest st'').1).projectWritten = st.projectWritten ∧
        (∀ e ∈ ((runItems cfg p env rest st'').1).progress.errors,
          e ∈ st.progress.errors ∨ (e.is_fatal = false ∧ e.error_message = "File is offline")) := by
      intro st'' h1 h2 h3 h4
      obtain ⟨c1, c2, c3, c4, c5⟩ := ih st'' (by omega)
      refine ⟨c1, by rw [c2, h1]; omega, c3.trans h2, c4.trans h3, ?_⟩
      intro e he
      rcases c5 e he with hi | hp
      · exact h4 e hi
      · exact Or.inr hp
    have hcc := check_cancelled_of_gt env st k hk (by omega)
    rw [runItems, hcc]
    dsimp only
    simp only [Bool.false_eq_true, if_false]
    cases hl : List.lookup media_id p.media_files with
    | none =>
      exact step _ rfl rfl rfl (fun e he => Or.inl he)
    | some media =>
      cases hd : env.fileOnDisk media.file_path with
      | false =>
        simp only [hd, Bool.not_false, if_true]
        cases hs : cfg.skip_offline_media with
        | true =>
          simp only [hs, if_true]
          exact step _ rfl rfl rfl (fun e he => Or.inl he)
        | false =>
          simp only [hs, Bool.false_eq_true, if_false]
          refine step _ rfl rfl rfl ?_
          intro e he
          rcases List.mem_append.mp he with hia | hib
          · exact Or.inl hia
          · exact Or.inr (by rw [List.mem_singleton.mp hib]; exact ⟨rfl, rfl⟩)
      | true =>
        simp only [hd, Bool.not_true, Bool.false_eq_true, if_false]
        exact step _ rfl rfl rfl (fun e he => Or.inl he)

/-- Helper: a bailing `check_cancelled` has set the status to `Cancelled`. -/
theorem check_cancelled_true_status (env : RunEnv) (st : RunSt)
    (h : (check_cancelled env st).2 = true) :
    ((check_cancelled env st).1).progress.status = ConsolidationStatus.Cancelled := by
  unfold check_cancelled at h ⊢
  dsimp only at h ⊢
  by_cases hobs : (match env.cancelFrom with
    | some k => decide (k ≤ st.checksDone)
    | none => false) = true
  · rw [if_pos hobs]
    rfl
  · rw [if_neg hobs] at h
    exact absurd h (by simp)

/-- Helper: a passing `check_cancelled` means the flag index is still ahead
of the checkpoint counter. -/
theorem check_cancelled_false_lt (env : RunEnv) (st : RunSt) (k : Nat)
    (hk : env.cancelFrom = some k) (h : (check_cancelled env st).2 = false) :
    st.checksDone < k := by
  unfold check_cancelled at h
  rw [hk] at h
  dsimp only at h
  split at h
  · exact absurd h (by simp)
  · rename_i hobs
    simp only [decide_eq_true_eq] at hobs
    omega

/-- Helper: `check_cancelled` always advances the checkpoint counter by one. -/
theorem check_cancelled_checksDone (env : RunEnv) (st : RunSt) :
    ((check_cancelled env st).1).checksDone = st.checksDone + 1 := by
  unfold check_cancelled update_status
  cases env.cancelFrom
  · rfl
  · dsimp only
    split
    · rfl
    · rfl

/-- Helper: the per-media loop never touches the written-project flag. -/
theorem runItems_written (cfg : ConsolidationConfig) (p : PremiereProject) (env : RunEnv) :
    ∀ (items : List (String × MediaUsageInfo)) (st : RunSt),
      ((runItems cfg p env items st).1).projectWritten = st.projectWritten := by
  intro items
  induction items with
  | nil =>
    intro st
    rfl
  | cons item rest ih =>
    intro st
    obtain ⟨media_id, info⟩ := item
    rw [runItems]
    cases hc : (check_cancelled env st).2 with
    | true =>
      rw [if_pos rfl]
      exact check_cancelled_written env st
    | false =>
      simp only [Bool.false_eq_true, if_false]
      cases hl : List.lookup media_id p.media_files with
      | none =>
        exact (ih _).trans (check_cancelled_written env st)
      | some media =>
        cases hd : env.fileOnDisk media.file_path with
        | false =>
          simp only [hd, Bool.not_false, if_true]
          cases hs : cfg.skip_offline_media with
          | true =>
            simp only [hs, if_true]
            exact (ih _).trans (check_cancelled_written env st)
          | false =>
            simp only [hs, Bool.false_eq_true, if_false]
            exact (ih _).trans (check_cancelled_written env st)
        | true =>
          simp only [hd, Bool.not_true, Bool.false_eq_true, if_false]
          exact (ih _).trans (check_cancelled_written env st)

/-- Helper: when the per-media loop bails out, the status has been set to
`Cancelled`. -/
theorem runItems_bail_status (cfg : ConsolidationConfig) (p : PremiereProject) (env : RunEnv) :
    ∀ (items : List (String × MediaUsageInfo)) (st : RunSt),
      (runItems cfg p env items st).2 = true →
      ((runItems cfg p env items st).1).progress.status = ConsolidationStatus.Cancelled := by
  intro items
  induction items with
  | nil =>
    intro st h
    exact absurd h (by simp [runItems])
  | cons item rest ih =>
    intro st h
    obtain ⟨media_id, info⟩ := item
    rw [runItems] at h ⊢
    cases hc : (check_cancelled env st).2 with
    | true =>
      rw [hc] at h
      rw [if_pos rfl]
      exact check_cancelled_true_status env st hc
    | false =>
      rw [hc] at h
      simp only [Bool.false_eq_true, if_false] at h ⊢
      cases hl : List.lookup media_id p.media_files with
      | none =>
        rw [hl] at h
        exact ih _ h
      | some media =>
        rw [hl] at h
        dsimp only at h ⊢
        cases hd : env.fileOnDisk media.file_path with
        | false =>
          simp only [hd, Bool.not_false, if_true] at h ⊢
          cases hs : cfg.skip_offline_media with
          | true =>
            simp only [hs, if_true] at h ⊢
            exact ih _ h
          | false =>
            simp only [hs, Bool.false_eq_true, if_false] at h ⊢
            exact ih _ h
        | true =>
          simp only [hd, Bool.not_true, Bool.false_eq_true, if_false] at h ⊢
          exact ih _ h

/-- Helper: a non-bailing per-media loop performed one checkpoint per item. -/
theorem runItems_pass_checks (cfg : ConsolidationConfig) (p : PremiereProject) (env : RunEnv) :
    ∀ (items : List (String × MediaUsageInfo)) (st : RunSt),
      (runItems cfg p env items st).2 = false →
      ((runItems cfg p env items st).1).checksDone = st.checksDone + items.length := by
  intro items
  induction items with
  | nil =>
    intro st _
    simp [runItems]
  | cons item rest ih =>
    intro st h
    obtain ⟨media_id, info⟩ := item
    rw [runItems] at h ⊢
    cases hc : (check_cancelled env st).2 with
    | true =>
      rw [hc] at h
      simp at h
    | false =>
      rw [hc] at h
      simp only [Bool.false_eq_true, if_false] at h ⊢
      have hcd := check_cancelled_checksDone env st
      cases hl : List.lookup media_id p.media_files with
      | none =>
        rw [hl] at h
        rw [ih _ h]
        simp only [List.length_cons]
        omega
      | some media =>
        rw [hl] at h
        dsimp only at h ⊢
        cases hd : env.fileOnDisk media.file_path with
        | false =>
          simp only [hd, Bool.not_false, if_true] at h ⊢
          cases hs : cfg.skip_offline_media with
          | true =>
            simp only [hs, if_true] at h ⊢
            rw [ih _ h]
            simp only [List.length_cons]
            omega
          | false =>
            simp only [hs, Bool.false_eq_true, if_false] at h ⊢
            rw [ih _ h]
            simp only [List.length_cons]
            omega
        | true =>
          simp only [hd, Bool.not_true, Bool.false_eq_true, if_false] at h ⊢
          rw [ih _ h]
          simp only [List.length_cons]
          omega

/-- Helper: a run that returns no result was cancelled at a checkpoint: its
status is `Cancelled`, no project file was written, and the only errors on
the record are the per-item non-fatal offline errors (the cancellation
itself records none). -/
theorem run_none_cases (cfg : ConsolidationConfig) (p : PremiereProject) (env : RunEnv)
    (st : RunSt) (h : ConsolidationEngine.run cfg p env = (st, none)) :
    st.progress.status = ConsolidationStatus.Cancelled ∧
    st.projectWritten = false ∧
    (∀ e ∈ st.progress.errors, e.is_fatal = false ∧ e.error_message = "File is offline") := by
  unfold ConsolidationEngine.run at h
  dsimp only at h
  split at h
  · rename_i h1
    rw [Prod.mk.injEq] at h
    obtain ⟨hst, -⟩ := h
    subst hst
    refine ⟨check_cancelled_true_status env _ h1, ?_, ?_⟩
    · simp [check_cancelled_written, update_status]
    · intro e he
      simp [check_cancelled_errors, update_status] at he
  split at h
  · rename_i h2
    rw [Prod.mk.injEq] at h
    obtain ⟨hst, -⟩ := h
    subst hst
    refine ⟨check_cancelled_true_status env _ h2, ?_, ?_⟩
    · simp [check_cancelled_written, update_status]
    · intro e he
      simp [check_cancelled_errors, update_status] at he
  split at h
  · rename_i h3
    rw [Prod.mk.injEq] at h
    obtain ⟨hst, -⟩ := h
    subst hst
    refine ⟨check_cancelled_true_status env _ h3, ?_, ?_⟩
    · simp [check_cancelled_written, check_cancelled_errors, update_status]
    · intro e he
      simp [check_cancelled_errors, check_cancelled_written, update_status] at he
  split at h
  · rename_i h4
    rw [Prod.mk.injEq] at h
    obtain ⟨hst, -⟩ := h
    subst hst
    refine ⟨runItems_bail_status cfg p env _ _ h4, ?_, ?_⟩
    · simp [runItems_written, check_cancelled_written, update_status]
    · intro e he
      rcases runItems_errors cfg p env _ _ e he with h1 | h2
      · simp [check_cancelled_errors, update_status] at h1
      · exact h2
  split at h
  · rename_i h5
    rw [Prod.mk.injEq] at h
    obtain ⟨hst, -⟩ := h
    subst hst
    refine ⟨check_cancelled_true_status env _ h5, ?_, ?_⟩
    · simp [check_cancelled_written, runItems_written, update_status]
    · intro e he
      rw [check_cancelled_errors] at he
      rcases runItems_errors cfg p env _ _ e he with h1 | h2
      · simp [check_cancelled_errors, update_status] at h1
      · exact h2
  · simp at h

/-- Helper: a run that completed passed every checkpoint, in particular the
one after the media loop, so the cancel-flag index (if any) exceeds
`3 + number of used media items`. -/
theorem run_some_implies (cfg : ConsolidationConfig) (p : PremiereProject) (env : RunEnv)
    (st : RunSt) (res : RunResult) (h : ConsolidationEngine.run cfg p env = (st, some res))
    (k : Nat) (hk : env.cancelFrom = some k) :
    3 + (runUsage cfg p).used_media.length < k := by
  unfold ConsolidationEngine.run at h
  dsimp only at h
  split at h
  · simp at h
  split at h
  · simp at h
  split at h
  · simp at h
  split at h
  · simp at h
  split at h
  · simp at h
  rename_i h1 h2 h3 h4 h5
  have c4 := Bool.eq_false_iff.mpr h4
  have c5 := Bool.eq_false_iff.mpr h5
  have hpass := runItems_pass_checks cfg p env _ _ c4
  have hlt := check_cancelled_false_lt env _ k hk c5
  rw [hpass] at hlt
  simp only [check_cancelled_checksDone, update_status_checksDone] at hlt
  omega

/-- Helper: a passing `check_cancelled` only advanced the observation
counter: the rest of the state is unchanged. -/
theorem check_cancelled_false_state (env : RunEnv) (st : RunSt)
    (h : (check_cancelled env st).2 = false) :
    (check_cancelled env st).1 = { st with checksDone := st.checksDone + 1 } := by
  unfold check_cancelled at h ⊢
  dsimp only at h ⊢
  by_cases hobs : (match env.cancelFrom with
    | some k => decide (k ≤ st.checksDone)
    | none => false) = true
  · rw [if_pos hobs] at h
    exact absurd h (by simp)
  · rw [if_neg hobs]

/-- Helper: the state component of `ffmpegPoll` only advances the
observation counter. -/
theorem ffmpegPoll_state (env : RunEnvF) (st : RunSt) :
    (ffmpegPoll env st).1 = { st with checksDone := st.checksDone + 1 } := rfl

/-- Helper: `ffmpegPoll` keeps the whole progress record. -/
theorem ffmpegPoll_progress (env : RunEnvF) (st : RunSt) :
    ((ffmpegPoll env st).1).progress = st.progress := rfl

/-- Helper: `ffmpegPoll` keeps the written-project flag. -/
theorem ffmpegPoll_written (env : RunEnvF) (st : RunSt) :
    ((ffmpegPoll env st).1).projectWritten = st.projectWritten := rfl

/-- Helper: `ffmpegPoll` advances the observation counter by one. -/
theorem ffmpegPoll_checksDone (env : RunEnvF) (st : RunSt) :
    ((ffmpegPoll env st).1).checksDone = st.checksDone + 1 := rfl

/-- Helper: every error the refined per-media loop adds to the progress
record is the non-fatal "File is offline" error — in particular a poll
bail-out adds none. -/
theorem runItemsF_errors (cfg : ConsolidationConfig) (p : PremiereProject) (env : RunEnvF) :
    ∀ (items : List (String × MediaUsageInfo)) (st : RunSt) (e : ProcessingError),
      e ∈ ((runItemsF cfg p env items st).1).progress.errors →
      e ∈ st.progress.errors ∨ (e.is_fatal = false ∧ e.error_message = "File is offline") := by
  intro items
  induction items with
  | nil =>
    intro st e he
    exact Or.inl (by simpa [runItemsF] using he)
  | cons item rest ih =>
    intro st e he
    obtain ⟨media_id, info⟩ := item
    rw [runItemsF] at he
    cases hc : (check_cancelled env.toRunEnv st).2 with
    | true =>
      rw [hc] at he
      simp only [if_true] at he
      rw [check_cancelled_errors] at he
      exact Or.inl he
    | false =>
      rw [hc] at he
      simp only [Bool.false_eq_true, if_false] at he
      cases hl : List.lookup media_id p.media_files with
      | none =>
        rw [hl] at he
        rcases ih _ e he with h1 | h2
        · rw [check_cancelled_errors] at h1
          exact Or.inl h1
        · exact Or.inr h2
      | some media =>
        rw [hl] at he
        dsimp only at he
        cases hd : env.fileOnDisk media.file_path with
        | false =>
          simp only [hd, Bool.not_false, if_true] at he
          cases hs : cfg.skip_offline_media with
          | true =>
            simp only [hs, if_true] at he
            rcases ih _ e he with h1 | h2
            · rw [check_cancelled_errors] at h1
              exact Or.inl h1
            · exact Or.inr h2
          | false =>
            simp only [hs, Bool.false_eq_true, if_false] at he
            rcases ih _ e he with h1 | h2
            · simp only [check_cancelled_errors, List.mem_append, List.mem_singleton] at h1
              rcases h1 with h1a | h1b
              · exact Or.inl h1a
              · exact Or.inr (by rw [h1b]; exact ⟨rfl, rfl⟩)
            · exact Or.inr h2
        | true =>
          simp only [hd, Bool.not_true, Bool.false_eq_true, if_false] at he
          cases hm : modePolls env.processing_mode with
          | false =>
            simp only [hm, Bool.false_eq_true, if_false] at he
            rcases ih _ e he with h1 | h2
            · rw [check_cancelled_errors] at h1
              exact Or.inl h1
            · exact Or.inr h2
          | true =>
            simp only [hm, if_true] at he
            cases hq : (ffmpegPoll env (check_cancelled env.toRunEnv st).1).2 with
            | true =>
              rw [hq] at he
              simp only [if_true] at he
              rw [ffmpegPoll_progress, check_cancelled_errors] at he
              exact Or.inl he
            | false =>
              rw [hq] at he
              simp only [Bool.false_eq_true, if_false] at he
              rcases ih _ e he with h1 | h2
              · simp only [ffmpegPoll_progress, check_cancelled_errors] at h1
                exact Or.inl h1
              · exact Or.inr h2

/-- Helper: the refined per-media loop never touches the written-project
flag. -/
theorem runItemsF_written (cfg : ConsolidationConfig) (p : PremiereProject) (env : RunEnvF) :
    ∀ (items : List (String × MediaUsageInfo)) (st : RunSt),
      ((runItemsF cfg p env items st).1).projectWritten = st.projectWritten := by
  intro items
  induction items with
  | nil =>
    intro st
    rfl
  | cons item rest ih =>
    intro st
    obtain ⟨media_id, info⟩ := item
    rw [runItemsF]
    cases hc : (check_cancelled env.toRunEnv st).2 with
    | true =>
      rw [if_pos rfl]
      exact check_cancelled_written env.toRunEnv st
    | false =>
      simp only [Bool.false_eq_true, if_false]
      cases hl : List.lookup media_id p.media_files with
      | none =>
        exact (ih _).trans (check_cancelled_written env.toRunEnv st)
      | some media =>
        cases hd : env.fileOnDisk media.file_path with
        | false =>
          simp only [hd, Bool.not_false, if_true]
          cases hs : cfg.skip_offline_media with
          | true =>
            simp only [hs, if_true]
            exact (ih _).trans (check_cancelled_written env.toRunEnv st)
          | false =>
            simp only [hs, Bool.false_eq_true, if_false]
            exact (ih _).trans (check_cancelled_written env.toRunEnv st)
        | true =>
          simp only [hd, Bool.not_true, Bool.false_eq_true, if_false]
          cases hm : modePolls env.processing_mode with
          | false =>
            simp only [hm, Bool.false_eq_true, if_false]
            exact (ih _).trans (check_cancelled_written env.toRunEnv st)
          | true =>
            simp only [hm, if_true]
            cases hq : (ffmpegPoll env (check_cancelled env.toRunEnv st).1).2 with
            | true =>
              rw [if_pos rfl]
              exact (ffmpegPoll_written env _).trans (check_cancelled_written env.toRunEnv st)
            | false =>
              simp only [Bool.false_eq_true, if_false]
              exact (ih _).trans
                ((ffmpegPoll_written env _).trans (check_cancelled_written env.toRunEnv st))

/-- Helper: when the refined per-media loop bails out, either a checkpoint
observed the flag (status `Cancelled`) or an FFmpeg poll did (status left
exactly as it was on entry). -/
theorem runItemsF_bail_status (cfg : ConsolidationConfig) (p : PremiereProject) (env : RunEnvF) :
    ∀ (items : List (String × MediaUsageInfo)) (st : RunSt),
      (runItemsF cfg p env items st).2 = true →
      ((runItemsF cfg p env items st).1).progress.status = ConsolidationStatus.Cancelled ∨
      ((runItemsF cfg p env items st).1).progress.status = st.progress.status := by
  intro items
  induction items with
  | nil =>
    intro st h
    exact absurd h (by simp [runItemsF])
  | cons item rest ih =>
    intro st h
    obtain ⟨media_id, info⟩ := item
    rw [runItemsF] at h ⊢
    cases hc : (check_cancelled env.toRunEnv st).2 with
    | true =>
      rw [hc] at h
      rw [if_pos rfl]
      exact Or.inl (check_cancelled_true_status env.toRunEnv st hc)
    | false =>
      rw [hc] at h
      simp only [Bool.false_eq_true, if_false] at h ⊢
      have hstat : (check_cancelled env.toRunEnv st).1.progress.status = st.progress.status := by
        rw [check_cancelled_false_state env.toRunEnv st hc]
      cases hl : List.lookup media_id p.media_files with
      | none =>
        rw [hl] at h
        dsimp only at h ⊢
        rcases ih _ h with h1 | h2
        · exact Or.inl h1
        · exact Or.inr (h2.trans hstat)
      | some media =>
        rw [hl] at h
        dsimp only at h ⊢
        cases hd : env.fileOnDisk media.file_path with
        | false =>
          simp only [hd, Bool.not_false, if_true] at h ⊢
          cases hs : cfg.skip_offline_media with
          | true =>
            simp only [hs, if_true] at h ⊢
            rcases ih _ h with h1 | h2
            · exact Or.inl h1
            · exact Or.inr (h2.trans hstat)
          | false =>
            simp only [hs, Bool.false_eq_true, if_false] at h ⊢
            rcases ih _ h with h1 | h2
            · exact Or.inl h1
            · exact Or.inr (h2.trans hstat)
        | true =>
          simp only [hd, Bool.not_true, Bool.false_eq_true, if_false] at h ⊢
          cases hm : modePolls env.processing_mode with
          | false =>
            simp only [hm, Bool.false_eq_true, if_false] at h ⊢
            rcases ih _ h with h1 | h2
            · exact Or.inl h1
            · exact Or.inr (h2.trans hstat)
          | true =>
            simp only [hm, if_true] at h ⊢
            cases hq : (ffmpegPoll env (check_cancelled env.toRunEnv st).1).2 with
            | true =>
              rw [if_pos rfl]
              exact Or.inr hstat
            | false =>
              rw [hq] at h
              simp only [Bool.false_eq_true, if_false] at h ⊢
              rcases ih _ h with h1 | h2
              · exact Or.inl h1
              · exact Or.inr (h2.trans hstat)

/-- Helper: a non-bailing refined loop consumed at least one observation
point per item. -/
theorem runItemsF_pass_checks (cfg : ConsolidationConfig) (p : PremiereProject)
    (env : RunEnvF) :
    ∀ (items : List (String × MediaUsageInfo)) (st : RunSt),
      (runItemsF cfg p env items st).2 = false →
      st.checksDone + items.length ≤ ((runItemsF cfg p env items st).1).checksDone := by
  intro items
  induction items with
  | nil =>
    intro st _
    simp [runItemsF]
  | cons item rest ih =>
    intro st h
    obtain ⟨media_id, info⟩ := item
    rw [runItemsF] at h ⊢
    cases hc : (check_cancelled env.toRunEnv st).2 with
    | true =>
      rw [hc] at h
      simp at h
    | false =>
      rw [hc] at h
      simp only [Bool.false_eq_true, if_false] at h ⊢
      have hcd := check_cancelled_checksDone env.toRunEnv st
      cases hl : List.lookup media_id p.media_files with
      | none =>
        rw [hl] at h
        dsimp only at h ⊢
        have hih := ih _ h
        dsimp only at hih
        simp only [List.length_cons]
        omega
      | some media =>
        rw [hl] at h
        dsimp only at h ⊢
        cases hd : env.fileOnDisk media.file_path with
        | false =>
          simp only [hd, Bool.not_false, if_true] at h ⊢
          cases hs : cfg.skip_offline_media with
          | true =>
            simp only [hs, if_true] at h ⊢
            have hih := ih _ h
            dsimp only at hih
            simp only [List.length_cons]
            omega
          | false =>
            simp only [hs, Bool.false_eq_true, if_false] at h ⊢
            have hih := ih _ h
            dsimp only at hih
            simp only [List.length_cons]
            omega
        | true =>
          simp only [hd, Bool.not_true, Bool.false_eq_true, if_false] at h ⊢
          cases hm : modePolls env.processing_mode with
          | false =>
            simp only [hm, Bool.false_eq_true, if_false] at h ⊢
            have hih := ih _ h
            dsimp only at hih
            simp only [List.length_cons]
            omega
          | true =>
            simp only [hm, if_true] at h ⊢
            cases hq : (ffmpegPoll env (check_cancelled env.toRunEnv st).1).2 with
            | true =>
              rw [hq] at h
              simp at h
            | false =>
              rw [hq] at h
              simp only [Bool.false_eq_true, if_false] at h ⊢
              have hih := ih _ h
              dsimp only at hih
              have hpd := ffmpegPoll_checksDone env (check_cancelled env.toRunEnv st).1
              simp only [List.length_cons]
              omega

/-- Helper: a refined run that returns no result bailed out on an observed
cancellation: its status is `Cancelled` (checkpoint observation) or still
`Processing` (FFmpeg-poll observation), no project file was written, and
the only errors on the record are per-item non-fatal offline errors — the
cancellation itself records none. -/
theorem runF_none_cases (cfg : ConsolidationConfig) (p : PremiereProject) (env : RunEnvF)
    (st : RunSt) (h : ConsolidationEngine.runF cfg p env = (st, none)) :
    (st.progress.status = ConsolidationStatus.Cancelled ∨
      st.progress.status = ConsolidationStatus.Processing) ∧
    st.projectWritten = false ∧
    (∀ e ∈ st.progress.errors, e.is_fatal = false ∧ e.error_message = "File is offline") := by
  unfold ConsolidationEngine.runF at h
  dsimp only at h
  split at h
  · rename_i h1
    rw [Prod.mk.injEq] at h
    obtain ⟨hst, -⟩ := h
    subst hst
    refine ⟨Or.inl (check_cancelled_true_status env.toRunEnv _ h1), ?_, ?_⟩
    · simp [check_cancelled_written, update_status]
    · intro e he
      simp [check_cancelled_errors, update_status] at he
  split at h
  · rename_i h2
    rw [Prod.mk.injEq] at h
    obtain ⟨hst, -⟩ := h
    subst hst
    refine ⟨Or.inl (check_cancelled_true_status env.toRunEnv _ h2), ?_, ?_⟩
    · simp [check_cancelled_written, update_status]
    · intro e he
      simp [check_cancelled_errors, update_status] at he
  split at h
  · rename_i h3
    rw [Prod.mk.injEq] at h
    obtain ⟨hst, -⟩ := h
    subst hst
    refine ⟨Or.inl (check_cancelled_true_status env.toRunEnv _ h3), ?_, ?_⟩
    · simp [check_cancelled_written, check_cancelled_errors, update_status]
    · intro e he
      simp [check_cancelled_errors, check_cancelled_written, update_status] at he
  split at h
  · rename_i hno1 hno2 h3f h4
    rw [Prod.mk.injEq] at h
    obtain ⟨hst, -⟩ := h
    subst hst
    refine ⟨?_, ?_, ?_⟩
    · rcases runItemsF_bail_status cfg p env _ _ h4 with hC | hS
      · exact Or.inl hC
      · refine Or.inr ?_
        rw [hS, check_cancelled_false_state env.toRunEnv _ (Bool.eq_false_iff.mpr h3f)]
        rfl
    · simp [runItemsF_written, check_cancelled_written, update_status]
    · intro e he
      rcases runItemsF_errors cfg p env _ _ e he with h1 | h2
      · simp [check_cancelled_errors, update_status] at h1
      · exact h2
  split at h
  · rename_i h5
    rw [Prod.mk.injEq] at h
    obtain ⟨hst, -⟩ := h
    subst hst
    refine ⟨Or.inl (check_cancelled_true_status env.toRunEnv _ h5), ?_, ?_⟩
    · simp [check_cancelled_written, runItemsF_written, update_status]
    · intro e he
      rw [check_cancelled_errors] at he
      rcases runItemsF_errors cfg p env _ _ e he with h1 | h2
      · simp [check_cancelled_errors, update_status] at h1
      · exact h2
  · simp at h

/-- Helper: a refined run that completed passed every observation point; in
particular the checkpoint after the media loop, so the flag index (if any)
exceeds `3 + number of used media items`. -/
theorem runF_some_implies (cfg : ConsolidationConfig) (p : PremiereProject) (env : RunEnvF)
    (st : RunSt) (res : RunResult) (h : ConsolidationEngine.runF cfg p env = (st, some res))
    (k : Nat) (hk : env.cancelFrom = some k) :
    3 + (runUsage cfg p).used_media.length < k := by
  unfold ConsolidationEngine.runF at h
  dsimp only at h
  split at h
  · simp at h
  split at h
  · simp at h
  split at h
  · simp at h
  split at h
  · simp at h
  split at h
  · simp at h
  rename_i h1 h2 h3 h4 h5
  have c4 := Bool.eq_false_iff.mpr h4
  have c5 := Bool.eq_false_iff.mpr h5
  have hpass := runItemsF_pass_checks cfg p env _ _ c4
  have hlt := check_cancelled_false_lt env.toRunEnv _ k hk c5
  simp only [check_cancelled_checksDone, update_status_checksDone] at hpass hlt
  omega

/-- C8, counterexample (refined model): on a transcode run over a project
with two used (online) media files, the cancel flag becomes observable
while the first item is being processed, and is observed by the FFmpeg
monitor loop.  The run bails out (`none`, the propagated `Err`) and writes
no project file — but the final status is `Processing`, not `Cancelled`
(the poll loop kills the transcoder and bails without any status update,
and the caller only logs the error), and the error list is empty: no
non-fatal error is recorded.  Both remaining assertions of the claim fail. -/
theorem C8_counterexample :
    (ConsolidationEngine.runF cexCfgC8 cexProjectC8 cexEnvC8F).2 = none ∧
    (ConsolidationEngine.runF cexCfgC8 cexProjectC8 cexEnvC8F).1.progress.status =
      ConsolidationStatus.Processing ∧
    (ConsolidationEngine.runF cexCfgC8 cexProjectC8 cexEnvC8F).1.progress.errors = [] ∧
    (ConsolidationEngine.runF cexCfgC8 cexProjectC8 cexEnvC8F).1.projectWritten = false := by
  refine ⟨?_, ?_, ?_, ?_⟩ <;>
    simp [ConsolidationEngine.runF, runUsage, runItemsF, ffmpegPoll, modePolls,
      check_cancelled, update_status, cexCfgC8, cexProjectC8, cexEnvC8F,
      SequenceAnalyzer.analyze_sequences, analyzeLoop, SequenceAnalyzer.new,
      SequenceAnalyzer.with_handles, SequenceAnalyzer.include_all_multicam_angles,
      mkProject, mkSeq, mkClip, mkMedia, sequenceTasks, analyzeClipStep, addMediaUsage,
      updateEntry, List.find?, List.lookup]

/-- C8, amended: when the cancel flag becomes observable at any observation
point up to the checkpoint after the media loop — in particular while media
items are being processed, before the project-writing phase — the run stops
early (the Rust `Err` path), no rewritten project file is written, and the
cancellation records no error (every error on the record is a per-item
non-fatal "File is offline" error); the final status is `Cancelled` when a
`check_cancelled` checkpoint observes the flag, but remains `Processing`
when the FFmpeg monitor loop observes it mid-item, since that path bails
out of `run` without any status update and the caller only logs the
propagated error. -/
theorem C8_cancel_behavior (cfg : ConsolidationConfig) (p : PremiereProject) (env : RunEnvF)
    (k : Nat) (hk : env.cancelFrom = some k)
    (hbound : k ≤ 3 + (runUsage cfg p).used_media.length) :
    (ConsolidationEngine.runF cfg p env).2 = none ∧
    (ConsolidationEngine.runF cfg p env).1.projectWritten = false ∧
    (∀ e ∈ (ConsolidationEngine.runF cfg p env).1.progress.errors,
      e.is_fatal = false ∧ e.error_message = "File is offline") ∧
    ((ConsolidationEngine.runF cfg p env).1.progress.status = ConsolidationStatus.Cancelled ∨
      (ConsolidationEngine.runF cfg p env).1.progress.status =
        ConsolidationStatus.Processing) := by
  rcases hr : ConsolidationEngine.runF cfg p env with ⟨st, out⟩
  cases out with
  | some res =>
    exfalso
    have := runF_some_implies cfg p env st res hr k hk
    omega
  | none =>
    obtain ⟨s1, s2, s3⟩ := runF_none_cases cfg p env st hr
    exact ⟨rfl, s2, s3, s1⟩

/-- C8, witness: the amended behaviour on the concrete two-item transcode
run with the flag observed at observation point 3, the first per-item
checkpoint. -/
theorem C8_cancel_behavior_witness :
    (ConsolidationEngine.runF cexCfgC8 cexProjectC8 witEnvC8F).2 = none ∧
    (ConsolidationEngine.runF cexCfgC8 cexProjectC8 witEnvC8F).1.projectWritten = false ∧
    (∀ e ∈ (ConsolidationEngine.runF cexCfgC8 cexProjectC8 witEnvC8F).1.progress.errors,
      e.is_fatal = false ∧ e.error_message = "File is offline") ∧
    ((ConsolidationEngine.runF cexCfgC8 cexProjectC8 witEnvC8F).1.progress.status =
        ConsolidationStatus.Cancelled ∨
      (ConsolidationEngine.runF cexCfgC8 cexProjectC8 witEnvC8F).1.progress.status =
        ConsolidationStatus.Processing) :=
  C8_cancel_behavior cexCfgC8 cexProjectC8 witEnvC8F 3 rfl (by omega)

/-- Helper: decompose a prefix of an append. -/
theorem pref_append_cases (s a R : List Char) (h : s <+: a ++ R) : s <+: a ∨ a <+: s := by
  obtain ⟨t, ht⟩ := h
  rcases List.append_eq_append_iff.mp ht with ⟨a', ha, -⟩ | ⟨c', hs, -⟩
  · exact Or.inl ⟨a', ha.symm⟩
  · exact Or.inr ⟨c', hs.symm⟩

/-- Helper: decompose a prefix of a cons. -/
theorem pref_cons_cases (s : List Char) (c : Char) (L : List Char) (h : s <+: c :: L) :
    s = [] ∨ ∃ s', s = c :: s' ∧ s' <+: L := by
  obtain ⟨t, ht⟩ := h
  cases s with
  | nil => exact Or.inl rfl
  | cons s0 s1 =>
    simp only [List.cons_append, List.cons.injEq] at ht
    exact Or.inr ⟨s1, by rw [ht.1], ⟨t, ht.2⟩⟩

/-- Helper: decompose an innermost occurrence within a cons. -/
theorem sub_cons_cases (x : List Char) (c : Char) (L : List Char) (h : x <:+: c :: L) :
    x <+: c :: L ∨ x <:+: L := by
  obtain ⟨s, t, hst⟩ := h
  cases s with
  | nil => exact Or.inl ⟨t, by simpa using hst⟩
  | cons s0 s1 =>
    simp only [List.cons_append, List.cons.injEq] at hst
    exact Or.inr ⟨s1, t, hst.2⟩

/-- Helper: an occurrence extends along a cons. -/
theorem sub_cons_ext (x : List Char) (c : Char) (L : List Char) (h : x <:+: L) :
    x <:+: c :: L := by
  obtain ⟨s, t, hst⟩ := h
  exact ⟨c :: s, t, by rw [List.cons_append, List.cons_append, hst]⟩

/-- Helper: an occurrence within a drop is an occurrence. -/
theorem sub_of_drop (x L : List Char) (n : Nat) (h : x <:+: L.drop n) : x <:+: L := by
  obtain ⟨s, t, hst⟩ := h
  exact ⟨L.take n ++ s, t, by rw [List.append_assoc, List.append_assoc, ← List.append_assoc s,
    hst, List.take_append_drop]⟩

/-- Helper: a prefix is an occurrence. -/
theorem sub_of_pref (x L : List Char) (h : x <+: L) : x <:+: L := by
  obtain ⟨t, ht⟩ := h
  exact ⟨[], t, by simpa using ht⟩

/-- Helper: decompose an occurrence inside an append: it lies in the left
part, in the right part, or it starts inside the left part (with a
non-empty suffix of the left part as its prefix). -/
theorem sub_append_cases (x a R : List Char) (h : x <:+: a ++ R) :
    x <:+: a ∨ x <:+: R ∨ ∃ j, j < a.length ∧ (a.drop j) <+: x := by
  obtain ⟨s, t, hst⟩ := h
  rw [List.append_assoc] at hst
  rcases List.append_eq_append_iff.mp hst with ⟨a', ha, hxt⟩ | ⟨c', hs, hR⟩
  · rcases List.append_eq_append_iff.mp hxt with ⟨x', hax, ht⟩ | ⟨c', hx, ht⟩
    · exact Or.inl ⟨s, x', by rw [List.append_assoc, ← hax, ha]⟩
    · by_cases ha' : a' = []
      · subst ha'
        simp only [List.nil_append] at hx
        exact Or.inr (Or.inl ⟨[], t, by rw [List.nil_append, hx, ht]⟩)
      · refine Or.inr (Or.inr ⟨s.length, ?_, ?_⟩)
        · have hlen : a.length = s.length + a'.length := by
            rw [ha, List.length_append]
          have hne : a'.length ≠ 0 := fun h0 => ha' (List.eq_nil_of_length_eq_zero h0)
          omega
        · have hd : a.drop s.length = a' := by rw [ha]; simp
          rw [hd]
          exact ⟨c', hx.symm⟩
  · exact Or.inr (Or.inl ⟨c', t, by rw [hR, List.append_assoc]⟩)

/-- Helper: a pattern absent from the document leaves `replaceAllGo`
unchanged. -/
theorem replaceAllGo_id (pat rep : List Char) (hpat : pat ≠ []) :
    ∀ content : List Char, ¬ pat <:+: content → replaceAllGo pat rep content = content := by
  intro content
  induction content using replaceAllGo.induct pat rep with
  | case1 =>
    intro _
    simp [replaceAllGo]
  | case2 c rest hpref ih =>
    intro hno
    exfalso
    apply hno
    exact sub_of_pref _ _ ( List.isPrefixOf_iff_prefix.mp hpref)
  | case3 c rest hnpref ih =>
    intro hno
    rw [replaceAllGo, if_neg hnpref]
    rw [ih (fun hx => hno (sub_cons_ext _ c _ hx))]

/-- Helper: every character of the output comes from the document or the
replacement. -/
theorem replaceAllGo_mem (pat rep : List Char) :
    ∀ (content : List Char) (ch : Char), ch ∈ replaceAllGo pat rep content →
      ch ∈ content ∨ ch ∈ rep := by
  intro content
  induction content using replaceAllGo.induct pat rep with
  | case1 =>
    intro ch h
    simp [replaceAllGo] at h
  | case2 c rest hpref ih =>
    intro ch h
    rw [replaceAllGo, if_pos hpref] at h
    rcases List.mem_append.mp h with h1 | h2
    · exact Or.inr h1
    · rcases ih ch h2 with h3 | h4
      · exact Or.inl (List.mem_cons_of_mem c (List.mem_of_mem_drop h3))
      · exact Or.inr h4
  | case3 c rest hnpref ih =>
    intro ch h
    rw [replaceAllGo, if_neg hnpref] at h
    rcases List.mem_cons.mp h with h1 | h2
    · exact Or.inl (h1 ▸ List.mem_cons_self c rest)
    · rcases ih ch h2 with h3 | h4
      · exact Or.inl (List.mem_cons_of_mem c h3)
      · exact Or.inr h4

/-- Helper: if the pattern occurs, the replacement occurs in the output. -/
theorem replaceAllGo_rep_sub (pat rep : List Char) (hpat : pat ≠ []) :
    ∀ content : List Char, pat <:+: content → rep <:+: replaceAllGo pat rep content := by
  intro content
  induction content using replaceAllGo.induct pat rep with
  | case1 =>
    intro h
    obtain ⟨s, t, hst⟩ := h
    exfalso
    apply hpat
    have := List.append_eq_nil.mp hst
    exact (List.append_eq_nil.mp this.1).2
  | case2 c rest hpref ih =>
    intro _
    rw [replaceAllGo, if_pos hpref]
    exact ⟨[], replaceAllGo pat rep (rest.drop (pat.length - 1)), rfl⟩
  | case3 c rest hnpref ih =>
    intro h
    rw [replaceAllGo, if_neg hnpref]
    rcases sub_cons_cases pat c rest h with h1 | h2
    · exact absurd ( List.isPrefixOf_iff_prefix.mpr h1) hnpref
    · exact sub_cons_ext _ c _ (ih h2)

/-- Helper: a non-empty prefix of the output is a prefix of the document,
or within its first characters it meets the replacement. -/
theorem replaceAllGo_pref_cases (pat rep : List Char) :
    ∀ content s : List Char, s ≠ [] → s <+: replaceAllGo pat rep content →
      s <+: content ∨ ∃ j, j < s.length ∧ ((s.drop j <+: rep) ∨ rep <+: s.drop j) := by
  intro content
  induction content using replaceAllGo.induct pat rep with
  | case1 =>
    intro s hs h
    rw [show replaceAllGo pat rep [] = [] from by simp [replaceAllGo]] at h
    obtain ⟨t, ht⟩ := h
    exact absurd (List.append_eq_nil.mp ht).1 hs
  | case2 c rest hpref ih =>
    intro s hs h
    rw [replaceAllGo, if_pos hpref] at h
    rcases pref_append_cases s rep _ h with h1 | h2
    · exact Or.inr ⟨0, List.length_pos.mpr hs, Or.inl (by simpa using h1)⟩
    · exact Or.inr ⟨0, List.length_pos.mpr hs, Or.inr (by simpa using h2)⟩
  | case3 c rest hnpref ih =>
    intro s hs h
    rw [replaceAllGo, if_neg hnpref] at h
    rcases pref_cons_cases s c _ h with h1 | ⟨s', hs', hp⟩
    · exact absurd h1 hs
    · by_cases hse : s' = []
      · subst hse
        subst hs'
        exact Or.inl ⟨rest, rfl⟩
      · rcases ih s' hse hp with h2 | ⟨j, hj, hd⟩
        · left
          subst hs'
          obtain ⟨t, ht⟩ := h2
          exact ⟨t, by rw [List.cons_append, ht]⟩
        · right
          subst hs'
          refine ⟨j + 1, by simp only [List.length_cons]; omega, ?_⟩
          rw [List.drop_succ_cons]
          exact hd

/-- Helper: under the separation conditions the pattern never occurs in the
output of `replaceAllGo`. -/
theorem replaceAllGo_no_reoccur (pat rep : List Char) (hpat : pat ≠ [])
    (h1 : ¬ pat <:+: rep)
    (h2 : ∀ j, j < rep.length → ¬ (rep.drop j <+: pat))
    (h3 : ∀ j, 0 < j → j < pat.length → ¬ (pat.drop j <+: rep))
    (h4 : ¬ rep <:+: pat) :
    ∀ content : List Char, ¬ pat <:+: replaceAllGo pat rep content := by
  intro content
  induction content using replaceAllGo.induct pat rep with
  | case1 =>
    intro h
    rw [show replaceAllGo pat rep [] = [] from by simp [replaceAllGo]] at h
    obtain ⟨s, t, hst⟩ := h
    exact hpat (List.append_eq_nil.mp (List.append_eq_nil.mp hst).1).2
  | case2 c rest hpref ih =>
    intro h
    rw [replaceAllGo, if_pos hpref] at h
    rcases sub_append_cases pat rep _ h with hA | hB | ⟨j, hj, hd⟩
    · exact h1 hA
    · exact ih hB
    · exact h2 j hj hd
  | case3 c rest hnpref ih =>
    intro h
    rw [replaceAllGo, if_neg hnpref] at h
    rcases sub_cons_cases pat c _ h with hA | hB
    · rcases pref_cons_cases pat c _ hA with hnil | ⟨p', hp', hpp⟩
      · exact hpat hnil
      · by_cases hpe : p' = []
        · subst hpe
          apply hnpref
          apply List.isPrefixOf_iff_prefix.mpr
          rw [hp']
          exact ⟨rest, rfl⟩
        · rcases replaceAllGo_pref_cases pat rep rest p' hpe hpp with hC | ⟨j, hj, hD⟩
          · apply hnpref
            apply List.isPrefixOf_iff_prefix.mpr
            rw [hp']
            obtain ⟨t, ht⟩ := hC
            exact ⟨t, by rw [List.cons_append, ht]⟩
          · rcases hD with hE | hF
            · apply h3 (j + 1) (by omega) (by rw [hp']; simp only [List.length_cons]; omega)
              rw [hp', List.drop_succ_cons]
              exact hE
            · apply h4
              obtain ⟨t, ht⟩ := hF
              refine ⟨c :: p'.take j, t, ?_⟩
              rw [hp', List.cons_append, List.cons_append]
              congr 1
              rw [List.append_assoc, ht, List.take_append_drop]
    · exact ih hB

/-- Helper: under the separation conditions for a query string `q`,
`replaceAllGo` never introduces an occurrence of `q` that was not in the
document. -/
theorem replaceAllGo_no_introduce (pat rep q : List Char) (hq : q ≠ [])
    (h1 : ¬ q <:+: rep)
    (h2 : ∀ j, j < rep.length → ¬ (rep.drop j <+: q))
    (h3 : ∀ j, 0 < j → j < q.length → ¬ (q.drop j <+: rep))
    (h4 : ¬ rep <:+: q) :
    ∀ content : List Char, ¬ q <:+: content → ¬ q <:+: replaceAllGo pat rep content := by
  intro content
  induction content using replaceAllGo.induct pat rep with
  | case1 =>
    intro hc h
    rw [show replaceAllGo pat rep [] = [] from by simp [replaceAllGo]] at h
    exact hc h
  | case2 c rest hpref ih =>
    intro hc h
    rw [replaceAllGo, if_pos hpref] at h
    rcases sub_append_cases q rep _ h with hA | hB | ⟨j, hj, hd⟩
    · exact h1 hA
    · refine ih (fun hx => hc ?_) hB
      exact sub_cons_ext q c rest (sub_of_drop q rest _ hx)
    · exact h2 j hj hd
  | case3 c rest hnpref ih =>
    intro hc h
    rw [replaceAllGo, if_neg hnpref] at h
    rcases sub_cons_cases q c _ h with hA | hB
    · rcases pref_cons_cases q c _ hA with hnil | ⟨p', hp', hpp⟩
      · exact hq hnil
      · by_cases hpe : p' = []
        · subst hpe
          apply hc
          apply sub_of_pref
          rw [hp']
          exact ⟨rest, rfl⟩
        · rcases replaceAllGo_pref_cases pat rep rest p' hpe hpp with hC | ⟨j, hj, hD⟩
          · apply hc
            apply sub_of_pref
            rw [hp']
            obtain ⟨t, ht⟩ := hC
            exact ⟨t, by rw [List.cons_append, ht]⟩
          · rcases hD with hE | hF
            · apply h3 (j + 1) (by omega) (by rw [hp']; simp only [List.length_cons]; omega)
              rw [hp', List.drop_succ_cons]
              exact hE
            · apply h4
              obtain ⟨t, ht⟩ := hF
              refine ⟨c :: p'.take j, t, ?_⟩
              rw [hp', List.cons_append, List.cons_append]
              congr 1
              rw [List.append_assoc, ht, List.take_append_drop]
    · exact ih (fun hx => hc (sub_cons_ext q c rest hx)) hB

/-- Helper: transitivity of the occurrence relation. -/
theorem sub_trans (x y z : List Char) (h1 : x <:+: y) (h2 : y <:+: z) : x <:+: z := by
  obtain ⟨s, t, hst⟩ := h1
  obtain ⟨u, v, huv⟩ := h2
  refine ⟨u ++ s, t ++ v, ?_⟩
  rw [← huv, ← hst]
  simp [List.append_assoc]

/-- Helper: a string containing a character absent from another string
cannot occur in it. -/
theorem not_sub_of_mem_not_mem (x y : List Char) (c : Char) (hcx : c ∈ x) (hcy : c ∉ y) :
    ¬ x <:+: y := by
  intro h
  obtain ⟨s, t, hst⟩ := h
  apply hcy
  rw [← hst]
  simp [List.mem_append, hcx]

/-- Helper: `backToSlash` is the identity on backslash-free strings. -/
theorem backToSlash_id (s : List Char) (h : '\\' ∉ s) : backToSlash s = s := by
  induction s with
  | nil => rfl
  | cons c cs ih =>
    have hc : c ≠ '\\' := fun hcc => h (by rw [← hcc]; exact List.mem_cons_self c cs)
    have hcs : '\\' ∉ cs := fun hm => h (List.mem_cons_of_mem c hm)
    show List.map _ (c :: cs) = c :: cs
    simp only [List.map_cons]
    rw [if_neg hc]
    exact congrArg (c :: ·) (ih hcs)

/-- C9 counterexample: with the mapping `/Media/A.mov ↦ /out/Media/A.mov`
(the new path extends the original, exactly the shape the consolidator
produces) the rewritten document still contains the original path string:
the third replacement pass re-applies the as-is pattern to the already
rewritten text, and the new path itself ends in the original path. -/
theorem C9_counterexample :
    origC9 <:+: rewriteContent [(origC9, newC9)] contentC9 := by
  have ho : origC9 ≠ [] := by decide
  have hocc : origC9 <:+: contentC9 :=
    ⟨"<FilePath>".toList, "</FilePath>".toList, by decide⟩
  have hsub : origC9 <:+: newC9 := ⟨"/out".toList, [], by decide⟩
  have e1 : replaceAll origC9 newC9 contentC9 = replaceAllGo origC9 newC9 contentC9 := by
    unfold replaceAll
    rw [if_neg ho]
  have h1new : newC9 <:+: replaceAllGo origC9 newC9 contentC9 :=
    replaceAllGo_rep_sub origC9 newC9 ho contentC9 hocc
  have h1orig : origC9 <:+: replaceAllGo origC9 newC9 contentC9 :=
    sub_trans _ _ _ hsub h1new
  have h1bs : '\\' ∉ replaceAllGo origC9 newC9 contentC9 := by
    intro hmem
    rcases replaceAllGo_mem origC9 newC9 contentC9 '\\' hmem with hA | hB
    · exact absurd hA (by decide)
    · exact absurd hB (by decide)
  have hp2bs : '\\' ∈ slashToBack origC9 := by decide
  have hp2ne : slashToBack origC9 ≠ [] := by decide
  have e2 : replaceAll (slashToBack origC9) (slashToBack newC9)
      (replaceAllGo origC9 newC9 contentC9) = replaceAllGo origC9 newC9 contentC9 := by
    unfold replaceAll
    rw [if_neg hp2ne]
    exact replaceAllGo_id _ _ hp2ne _ (not_sub_of_mem_not_mem _ _ '\\' hp2bs h1bs)
  have hb3o : backToSlash origC9 = origC9 := by decide
  have hb3n : backToSlash newC9 = newC9 := by decide
  have hR : rewriteContent [(origC9, newC9)] contentC9 =
      replaceAllGo origC9 newC9 (replaceAllGo origC9 newC9 contentC9) := by
    show replaceAll (backToSlash origC9) (backToSlash newC9)
        (replaceAll (slashToBack origC9) (slashToBack newC9)
          (replaceAll origC9 newC9 contentC9)) = _
    rw [e1, e2, hb3o, hb3n]
    unfold replaceAll
    rw [if_neg ho]
  rw [hR]
  exact sub_trans _ _ _ hsub (replaceAllGo_rep_sub origC9 newC9 ho _ h1orig)

/-- C9 (amended): for a single-entry path mapping whose original and new
paths are non-empty, backslash-free and separated (the original does not
occur in the new path, no non-empty suffix of the new path is a prefix of
the original, no proper suffix of the original is a prefix of the new
path, and the new path does not occur in the original), applied to a
backslash-free document containing the original path, `write_project_file`
produces content free of the original path in all three slash forms and
containing the new path. The unamended claim is refuted by
the counterexample, where the new path extends the original. -/
theorem C9_rewrite_spec (orig new content : List Char)
    (ho : orig ≠ []) (hn : new ≠ [])
    (hbo : '\\' ∉ orig) (hbn : '\\' ∉ new) (hbc : '\\' ∉ content)
    (hso : '/' ∈ orig)
    (hocc : orig <:+: content)
    (h1 : ¬ orig <:+: new)
    (h2 : ∀ j, j < new.length → ¬ (new.drop j <+: orig))
    (h3 : ∀ j, 0 < j → j < orig.length → ¬ (orig.drop j <+: new))
    (h4 : ¬ new <:+: orig) :
    ¬ orig <:+: rewriteContent [(orig, new)] content ∧
    ¬ slashToBack orig <:+: rewriteContent [(orig, new)] content ∧
    ¬ backToSlash orig <:+: rewriteContent [(orig, new)] content ∧
    new <:+: rewriteContent [(orig, new)] content := by
  have e1 : replaceAll orig new content = replaceAllGo orig new content := by
    unfold replaceAll
    rw [if_neg ho]
  have hs1no : ¬ orig <:+: replaceAllGo orig new content :=
    replaceAllGo_no_reoccur orig new ho h1 h2 h3 h4 content
  have hs1new : new <:+: replaceAllGo orig new content :=
    replaceAllGo_rep_sub orig new ho content hocc
  have hs1bs : '\\' ∉ replaceAllGo orig new content := by
    intro hmem
    rcases replaceAllGo_mem orig new content '\\' hmem with hA | hB
    · exact hbc hA
    · exact hbn hB
  have hp2bs : '\\' ∈ slashToBack orig := by
    unfold slashToBack
    exact List.mem_map.mpr ⟨'/', hso, by simp⟩
  have hp2ne : slashToBack orig ≠ [] := by
    intro hnil
    apply ho
    have hlen := congrArg List.length hnil
    simp only [slashToBack, List.length_map, List.length_nil] at hlen
    exact List.eq_nil_of_length_eq_zero hlen
  have e2 : replaceAll (slashToBack orig) (slashToBack new)
      (replaceAllGo orig new content) = replaceAllGo orig new content := by
    unfold replaceAll
    rw [if_neg hp2ne]
    exact replaceAllGo_id _ _ hp2ne _ (not_sub_of_mem_not_mem _ _ '\\' hp2bs hs1bs)
  have hb3o : backToSlash orig = orig := backToSlash_id orig hbo
  have hb3n : backToSlash new = new := backToSlash_id new hbn
  have e3 : replaceAll (backToSlash orig) (backToSlash new)
      (replaceAllGo orig new content) = replaceAllGo orig new content := by
    rw [hb3o, hb3n]
    unfold replaceAll
    rw [if_neg ho]
    exact replaceAllGo_id orig new ho _ hs1no
  have hR : rewriteContent [(orig, new)] content = replaceAllGo orig new content := by
    show replaceAll (backToSlash orig) (backToSlash new)
        (replaceAll (slashToBack orig) (slashToBack new)
          (replaceAll orig new content)) = _
    rw [e1, e2, e3]
  rw [hR]
  refine ⟨hs1no, not_sub_of_mem_not_mem _ _ '\\' hp2bs hs1bs, ?_, hs1new⟩
  rw [hb3o]
  exact hs1no

/-- C9 witness: the amended rewrite specification holds for the separated
mapping `/m/A.mov ↦ /out/Media/A.mov` applied to a document containing the
original path. -/
theorem C9_rewrite_spec_witness :
    ¬ origW9 <:+: rewriteContent [(origW9, newW9)] contentW9 ∧
    newW9 <:+: rewriteContent [(origW9, newW9)] contentW9 := by
  have h := C9_rewrite_spec origW9 newW9 contentW9 (by decide) (by decide) (by decide)
    (by decide) (by decide) (by decide)
    ⟨"<FilePath>".toList, "</FilePath>".toList, by decide⟩
    (by decide) (by decide)
    (fun j hj0 hjl =>
      (by decide : ∀ j, j < origW9.length → 0 < j → ¬ (origW9.drop j <+: newW9)) j hjl hj0)
    (by decide)
  exact ⟨h.1, h.2.2.2⟩
